import Mathlib

/-!
# A verification model of the MicroScheduler `Scheduler` class

This file gives a shallow embedding of `src/Scheduler.h` / `src/Scheduler.cpp`
(the cooperative task scheduler) in Lean 4, together with theorems settling
the specification claims about it.

Modelling conventions:
* `uint32_t` millisecond ticks become `Nat` with explicit reduction mod 2^32
  (`U32`).  The C++ readiness test `(long)(now - executeAt) >= 0` on 32-bit
  targets becomes `ready`, the check that the wrapped difference is < 2^31.
* `PID_t` (`uint16_t`) values become `Nat` with wrapping mod 2^16 at the
  points where the C++ code increments them.
* `std::function<void()>` actions become a deep-embedded command language
  `Cmd`: the ways an action can call back into the scheduler that matter for
  the claims (adding tasks, `stop()`, `removeTask`).  `std::function<bool()>`
  conditions become `Nat → Bool` functions of the current time (`millis()`),
  wrapped in `Option` to model a null `std::function`.
* `loop` additionally returns the list of observable callback invocations
  (`Event`): each execution of a task action and each timeout notification.
-/

namespace MicroSched

/-- Reduce a natural number modulo 2^32, as storing into a `uint32_t` does. -/
def U32 (n : Nat) : Nat := n % 4294967296

/-- Reinterpret a `uint32_t` value as a signed 32-bit `long` (32-bit target). -/
def toI32 (n : Nat) : Int :=
  if n % 4294967296 < 2147483648 then (n % 4294967296 : Int)
  else (n % 4294967296 : Int) - 4294967296

/-- The wrapped `uint32_t` difference `a - b`. -/
def wrapSub (a b : Nat) : Nat :=
  (a + (4294967296 - b % 4294967296)) % 4294967296

/-- The C++ readiness test `(long)(now - executeAt) >= 0`. -/
def ready (now executeAt : Nat) : Bool :=
  wrapSub now executeAt < 2147483648

/-- Convert the signed `long conditionWait` back to `uint32_t` when the C++
code adds it to an unsigned time value. -/
def condWaitU32 (w : Int) : Nat := (w % (4294967296 : Int)).toNat

/-- The deep-embedded command language for task actions
(`std::function<void()> onExecute`): the scheduler-facing operations an
action body can perform that are relevant to the claims. -/
inductive Cmd where
  /-- Call `addTimedTask(action, delay, repeat, interval)` from inside the action. -/
  | addTimed (act : List Cmd) (delayMs : Nat) (rep : Bool) (interval : Nat)
  /-- Call `addConditionalTask(action, condition, conditionWaitMs)` from inside the action. -/
  | addCond (act : List Cmd) (condition : Nat → Bool) (conditionWaitMs : Nat) (hasOnTimeout : Bool)
  /-- Call `stop()` from inside the action. -/
  | stopCmd
  /-- Call `removeTask(pid)` from inside the action. -/
  | removeCmd (pid : Nat)
  /-- A scheduler-irrelevant effect. -/
  | nop

/-- The `Scheduler::Task` struct.  The `hasOnTimeout` field stands for
whether the optional `std::function<void(PID_t)> onTimeout` callback is
non-null; the callback itself is observable only through `Event.timeout`. -/
structure Task where
  PID : Nat := 0
  action : List Cmd := []
  hasOnTimeout : Bool := false
  repeat_ : Bool := false
  interval : Nat := 0
  condition : Option (Nat → Bool) := none
  conditionMet : Bool := false
  conditionWait : Int := 0
  postConditionDelay : Nat := 0
  executeAt : Nat := 0

/-- `Task::indefinite`: `conditionWait <= 0`. -/
def Task.indefinite (t : Task) : Bool := decide (t.conditionWait ≤ 0)

/-- `Task::conditionTrue`: `condition && condition()`, with the condition a
function of the current `millis()` value. -/
def Task.conditionTrue (t : Task) (now : Nat) : Bool :=
  match t.condition with
  | none => false
  | some c => c now

/-- The value `Task::setExecutionTime` stores: the wrapped time, with the
sentinel 0 remapped to 1. -/
def execTime (time : Nat) : Nat := if U32 time = 0 then 1 else U32 time

/-- `Task::setExecutionTime`. -/
def Task.setExecutionTime (t : Task) (time : Nat) : Task :=
  { t with executeAt := execTime time }

/-- Observable callback invocations made during one `loop()` call. -/
inductive Event where
  /-- The action of the task with this PID was invoked. -/
  | exec (pid : Nat)
  /-- Modelled from the spec: the `onTimeout` callback declared in
  `Scheduler.h` was invoked with this PID (the primary `Scheduler.cpp` in
  `src/` declares but never implements the callback). -/
  | timeout (pid : Nat)
deriving DecidableEq, Repr

/-- The scheduler state (the private fields of class `Scheduler`). -/
structure Scheduler where
  tasks : List Task := []
  sequentialMode : Bool := false
  lastSequentialFinishTime : Nat := 0
  will_stop : Bool := false
  tasksToRemove : List Nat := []
  nextPID : Nat := 1
  onHold : Bool := false
  inLoop : Bool := false

/-- The freshly constructed scheduler. -/
def initScheduler : Scheduler := {}

/-- `MAX_TASKS`. -/
def MAX_TASKS : Nat := 124

/-- `tasks.map Task.PID`: the PIDs currently in the store. -/
def pidsOf (l : List Task) : List Nat := l.map Task.PID

/-- `std::find_if(tasks.begin(), tasks.end(), [pid](t){ return t.PID == pid; })`. -/
def findTask (l : List Task) (pid : Nat) : Option Task :=
  l.find? fun t => t.PID == pid

/-- Erase the first task with the given PID (if any), as
`tasks.erase(std::find_if(...))` does. -/
def eraseTaskByPID (l : List Task) (pid : Nat) : List Task :=
  match l with
  | [] => []
  | t :: ts => if t.PID == pid then ts else t :: eraseTaskByPID ts pid

/-- Update the first task with the given PID in place. -/
def modifyFirstByPID (f : Task → Task) (pid : Nat) : List Task → List Task
  | [] => []
  | t :: ts => if t.PID == pid then f t :: ts else t :: modifyFirstByPID f pid ts

/-- `Scheduler::modifyTaskByPID` (dropping the found/not-found Boolean,
which no caller in the claims observes). -/
def modifyTaskByPID (l : List Task) (pid : Nat) (nt : Task) : List Task :=
  modifyFirstByPID (fun _ => nt) pid l

/-- `Scheduler::clearMarkedForRemoval`: erase every ledgered PID, then clear
the ledger. -/
def Scheduler.clearMarkedForRemoval (s : Scheduler) : Scheduler :=
  { s with tasks := s.tasksToRemove.foldl eraseTaskByPID s.tasks,
           tasksToRemove := [] }

/-- One increment of the `uint16_t` PID counter with the 0-skip. -/
def bumpPID (c : Nat) : Nat :=
  if (c + 1) % 65536 = 0 then 1 else (c + 1) % 65536

/-- The collision-avoidance search of `Scheduler::getAndIncrementPID`,
made total with fuel (the C++ do-while terminates whenever some nonzero
16-bit value is free, which the store capacity guarantees). -/
def findFreePID (pids : List Nat) : Nat → Nat → Nat
  | 0, cand => cand
  | Nat.succ fuel, cand =>
    if cand ∈ pids then findFreePID pids fuel (bumpPID cand) else cand

/-- The starting candidate of the search: `if (!nextPID) nextPID = 1`. -/
def startPID (n : Nat) : Nat := if n % 65536 = 0 then 1 else n % 65536

/-- `Scheduler::getAndIncrementPID`. -/
def Scheduler.getAndIncrementPID (s : Scheduler) : Nat × Scheduler :=
  (findFreePID (pidsOf s.tasks) 65535 (startPID s.nextPID),
   { s with nextPID :=
       (findFreePID (pidsOf s.tasks) 65535 (startPID s.nextPID) + 1) % 65536 })

/-- `Scheduler::addTimedTask`. -/
def Scheduler.addTimedTask (s : Scheduler) (act : List Cmd) (delayMs : Nat)
    (rep : Bool) (interval : Nat) : Nat × Scheduler :=
  let rep := if s.sequentialMode && rep then false else rep
  if s.tasks.length ≥ MAX_TASKS then (0, s)
  else
    let p := s.getAndIncrementPID
    let t : Task := { PID := p.1, action := act, repeat_ := rep,
                      interval := interval,
                      condition := some fun _ => true, conditionMet := false,
                      conditionWait := 0, postConditionDelay := delayMs,
                      executeAt := 0 }
    (p.1, { p.2 with tasks := p.2.tasks ++ [t] })

/-- `Scheduler::addConditionalTask`.  The `hasOnTimeout` argument is
Modelled from the spec: the `onTimeout` parameter is declared in
`Scheduler.h` but absent from the `addConditionalTask` implementation in
`src/Scheduler.cpp`. -/
def Scheduler.addConditionalTask (s : Scheduler) (act : List Cmd)
    (condition : Nat → Bool) (conditionWaitMs : Nat) (hasOnTimeout : Bool) :
    Nat × Scheduler :=
  if s.tasks.length ≥ MAX_TASKS then (0, s)
  else
    let p := s.getAndIncrementPID
    let t : Task := { PID := p.1, action := act, hasOnTimeout := hasOnTimeout,
                      repeat_ := false, interval := 0,
                      condition := some condition, conditionMet := false,
                      conditionWait := toI32 conditionWaitMs,
                      postConditionDelay := 0, executeAt := 0 }
    (p.1, { p.2 with tasks := p.2.tasks ++ [t] })

/-- `Scheduler::addConditionalTimedTask`. -/
def Scheduler.addConditionalTimedTask (s : Scheduler) (act : List Cmd)
    (condition : Nat → Bool) (postDelayMs : Nat) (conditionWaitMs : Nat)
    (hasOnTimeout : Bool) : Nat × Scheduler :=
  if s.tasks.length ≥ MAX_TASKS then (0, s)
  else
    let p := s.getAndIncrementPID
    let t : Task := { PID := p.1, action := act, hasOnTimeout := hasOnTimeout,
                      repeat_ := false, interval := 0,
                      condition := some condition, conditionMet := false,
                      conditionWait := toI32 conditionWaitMs,
                      postConditionDelay := postDelayMs, executeAt := 0 }
    (p.1, { p.2 with tasks := p.2.tasks ++ [t] })

/-- `Scheduler::removeTask`: schedule the PID for removal if present. -/
def Scheduler.removeTask (s : Scheduler) (pid : Nat) : Bool × Scheduler :=
  if (findTask s.tasks pid).isSome then
    (true, { s with tasksToRemove := s.tasksToRemove ++ [pid] })
  else (false, s)

/-- `Scheduler::setRepeatingTaskInterval`. -/
def Scheduler.setRepeatingTaskInterval (s : Scheduler) (pid : Nat)
    (interval : Nat) : Bool × Scheduler :=
  if s.inLoop then (false, s)
  else
    match findTask s.tasks pid with
    | none => (false, s)
    | some t =>
      if !t.repeat_ then (false, s)
      else
        let nt : Task := { t with postConditionDelay := interval,
                                  interval := interval, executeAt := 0 }
        (true, { s with tasks := modifyTaskByPID s.tasks pid nt })

/-- `Scheduler::stop`. -/
def Scheduler.stop (s : Scheduler) : Scheduler :=
  { s with will_stop := true,
           tasksToRemove := s.tasksToRemove ++ pidsOf s.tasks }

/-- `Scheduler::hold`. -/
def Scheduler.hold (s : Scheduler) : Scheduler := { s with onHold := true }

/-- `Scheduler::resume`. -/
def Scheduler.resume (s : Scheduler) : Scheduler := { s with onHold := false }

/-- `Scheduler::setAndStartSequentialMode` (the `millis()` reading is passed
in as `now`). -/
def Scheduler.setAndStartSequentialMode (s : Scheduler) (seq : Bool)
    (now : Nat) : Scheduler :=
  { s with sequentialMode := seq,
           lastSequentialFinishTime :=
             if seq then U32 now else s.lastSequentialFinishTime }

/-- One callback from an action body into the scheduler. -/
def Scheduler.runCmd (s : Scheduler) : Cmd → Scheduler
  | Cmd.addTimed act d rep i => (s.addTimedTask act d rep i).2
  | Cmd.addCond act c w hto => (s.addConditionalTask act c w hto).2
  | Cmd.stopCmd => s.stop
  | Cmd.removeCmd pid => (s.removeTask pid).2
  | Cmd.nop => s

/-- Run an action body (`onExecute`) against the scheduler state. -/
def Scheduler.runAction (s : Scheduler) (a : List Cmd) : Scheduler :=
  a.foldl Scheduler.runCmd s

/-- The first activation pass of parallel `loop` (per task). -/
def activateParallel (now : Nat) (t : Task) : Task :=
  if t.executeAt = 0 then
    if t.indefinite then
      if t.conditionTrue now then
        ({ t with conditionMet := true }).setExecutionTime
          (now + t.postConditionDelay)
      else t
    else t.setExecutionTime (now + condWaitU32 t.conditionWait)
  else t

/-- The second (classification) pass of parallel `loop`: returns the updated
task list, the `execPIDs`, the `removePIDs`, and the PIDs whose removal is a
timeout of a task carrying an `onTimeout` callback. -/
def classifyParallel (now : Nat) :
    List Task → List Task × List Nat × List Nat × List Nat
  | [] => ([], [], [], [])
  | t :: ts =>
    let t := if t.condition.isNone
             then { t with condition := some fun _ => true } else t
    let r := classifyParallel now ts
    if !t.conditionMet then
      if t.conditionTrue now then
        let t := ({ t with conditionMet := true }).setExecutionTime
                   (now + t.postConditionDelay)
        (t :: r.1, r.2.1, r.2.2.1, r.2.2.2)
      else if !t.indefinite && ready now t.executeAt then
        (t :: r.1, r.2.1, t.PID :: r.2.2.1,
         if t.hasOnTimeout then t.PID :: r.2.2.2 else r.2.2.2)
      else (t :: r.1, r.2.1, r.2.2.1, r.2.2.2)
    else
      if ready now t.executeAt then
        (t :: r.1, t.PID :: r.2.1, r.2.2.1, r.2.2.2)
      else (t :: r.1, r.2.1, r.2.2.1, r.2.2.2)

/-- The `will_stop` handler inside the parallel dispatch: for each ledgered
PID still in the store, clear its `repeat` flag and record it as
"just executed" so the reconcile pass removes it. -/
def forceNoRepeat (tasks : List Task) : List Nat → List Task × List Nat
  | [] => (tasks, [])
  | p :: ps =>
    if (findTask tasks p).isSome then
      let tasks := modifyFirstByPID (fun t => { t with repeat_ := false }) p tasks
      let r := forceNoRepeat tasks ps
      (r.1, p :: r.2)
    else forceNoRepeat tasks ps

/-- The dispatch pass of parallel `loop`.  `orig` is the full `execPIDs`
vector the reconcile pass will iterate when no task called `stop()`;
`pending` is the not-yet-dispatched remainder.  Returns the scheduler, the
PID list handed to the reconcile pass, and the invoked actions. -/
def dispatchParallel (s : Scheduler) (orig : List Nat) :
    List Nat → List Event → Scheduler × List Nat × List Event
  | [], evs => (s, orig, evs)
  | pid :: rest, evs =>
    match findTask s.tasks pid with
    | none => dispatchParallel s orig rest evs
    | some t =>
      let s := s.runAction t.action
      let evs := evs ++ [Event.exec pid]
      if s.will_stop then
        let r := forceNoRepeat s.tasks s.tasksToRemove
        ({ s with will_stop := false, tasks := r.1, tasksToRemove := [] },
         r.2, evs)
      else dispatchParallel s orig rest evs

/-- The reconcile pass of parallel `loop`: executed repeating tasks are
reset to a fresh pending state, executed one-shot tasks join `removePIDs`. -/
def reconcile (s : Scheduler) : List Nat → List Nat → Scheduler × List Nat
  | [], rps => (s, rps)
  | pid :: rest, rps =>
    match findTask s.tasks pid with
    | none => reconcile s rest rps
    | some t =>
      if t.repeat_ then
        let nt : Task := { t with conditionMet := false,
                                  postConditionDelay := t.interval,
                                  executeAt := 0 }
        reconcile { s with tasks := modifyTaskByPID s.tasks pid nt } rest rps
      else reconcile s rest (rps ++ [pid])

/-- Insertion into a sorted list (`std::sort` on the small removal list). -/
def insertSorted (x : Nat) : List Nat → List Nat
  | [] => [x]
  | y :: ys => if x ≤ y then x :: y :: ys else y :: insertSorted x ys

/-- Sort a PID list ascending. -/
def sortNat (l : List Nat) : List Nat := l.foldr insertSorted []

/-- Drop consecutive duplicates (`std::unique` after sorting). -/
def uniqueSorted : List Nat → List Nat
  | [] => []
  | [a] => [a]
  | a :: b :: rest =>
    if a = b then uniqueSorted (b :: rest) else a :: uniqueSorted (b :: rest)

/-- Modelled from the spec: the timeout notifications fired after the
commit pass — `src/Scheduler.cpp` removes timed-out tasks silently, while
`Scheduler.h` and the spec provide the `onTimeout(pid)` callback for them. -/
def timeoutEvents (pids : List Nat) : List Event := pids.map Event.timeout

/-- The parallel-mode body of `Scheduler::loop`.  The classification pass
yields `(tasks, execPIDs, removePIDs, timeouts)`; dispatch yields the state,
the PID list that the reconcile pass iterates, and the invoked actions. -/
def Scheduler.loopParallel (s : Scheduler) (now : Nat) :
    Scheduler × List Event :=
  let c := classifyParallel now (s.tasks.map (activateParallel now))
  let d := dispatchParallel { s with tasks := c.1 } c.2.1 c.2.1 []
  let r := reconcile d.1 d.2.1 c.2.2.1
  ({ r.1 with tasks := (uniqueSorted (sortNat r.2)).foldl
                         eraseTaskByPID r.1.tasks },
   d.2.2 ++ timeoutEvents c.2.2.2)

/-- The activation step of sequential `loop`, on the local copy of the head
task; the Boolean is the `taskChanged` flag it sets. -/
def seqActivate (s : Scheduler) (t : Task) : Task × Bool :=
  if t.executeAt = 0 then
    let r := if t.condition.isNone
             then ({ t with condition := some fun _ => true }, true)
             else (t, false)
    if !r.1.indefinite then
      (r.1.setExecutionTime (s.lastSequentialFinishTime +
         condWaitU32 r.1.conditionWait), true)
    else r
  else (t, false)

/-- The sequential-mode body of `Scheduler::loop`. -/
def Scheduler.loopSequential (s : Scheduler) (now : Nat) :
    Scheduler × List Event :=
  match s.tasks with
  | [] => (s, [])
  | t0 :: _ =>
    let ac := seqActivate s t0
    let t := ac.1
    if !t.conditionMet then
      if t.conditionTrue now then
        let t2 := ({ t with conditionMet := true }).setExecutionTime
                    (now + t.postConditionDelay)
        ({ s with tasks := modifyTaskByPID s.tasks t2.PID t2 }, [])
      else if !t.indefinite && ready now t.executeAt then
        ({ s with tasks := eraseTaskByPID s.tasks t.PID,
                  lastSequentialFinishTime := now },
         if t.hasOnTimeout then timeoutEvents [t.PID] else [])
      else if ac.2 then
        ({ s with tasks := modifyTaskByPID s.tasks t.PID t }, [])
      else (s, [])
    else
      if ready now t.executeAt then
        let s2 := s.runAction t.action
        if s2.will_stop then
          ({ s2 with will_stop := false,
                     tasks := s2.tasksToRemove.foldl eraseTaskByPID s2.tasks,
                     tasksToRemove := [],
                     lastSequentialFinishTime := now },
           [Event.exec t.PID])
        else
          ({ s2 with tasks := eraseTaskByPID s2.tasks t.PID,
                     lastSequentialFinishTime := now },
           [Event.exec t.PID])
      else if ac.2 then
        ({ s with tasks := modifyTaskByPID s.tasks t.PID t }, [])
      else (s, [])

/-- `Scheduler::loop`, returning the new state and the callbacks invoked. -/
def Scheduler.loop (s : Scheduler) (now0 : Nat) : Scheduler × List Event :=
  if s.tasks.isEmpty || s.onHold then (s, [])
  else if s.will_stop then
    ({ s.clearMarkedForRemoval with will_stop := false }, [])
  else
    let s1 := if s.tasksToRemove.length > 0 then s.clearMarkedForRemoval else s
    let s2 : Scheduler := { s1 with inLoop := true }
    let now := U32 now0
    let r := if s2.sequentialMode then s2.loopSequential now
             else s2.loopParallel now
    ({ r.1 with inLoop := false }, r.2)

/-- Run a sequence of `loop` calls at the given times, collecting events. -/
def runLoops (s : Scheduler) : List Nat → Scheduler × List Event
  | [] => (s, [])
  | t :: ts =>
    let r := s.loop t
    let r2 := runLoops r.1 ts
    (r2.1, r.2 ++ r2.2)

/-- A call of the public control API, for quantifying over call sequences. -/
inductive TopOp where
  | addTimed (act : List Cmd) (delayMs : Nat) (rep : Bool) (interval : Nat)
  | addCond (act : List Cmd) (condition : Nat → Bool) (waitMs : Nat)
      (hasOnTimeout : Bool)
  | addCondTimed (act : List Cmd) (condition : Nat → Bool) (postMs waitMs : Nat)
      (hasOnTimeout : Bool)
  | remove (pid : Nat)
  | setInterval (pid : Nat) (interval : Nat)
  | setSeq (b : Bool) (now : Nat)
  | stopOp
  | holdOp
  | resumeOp
  | loopOp (now : Nat)

/-- Interpret one control-API call. -/
def runOp (s : Scheduler) : TopOp → Scheduler
  | TopOp.addTimed act d rep i => (s.addTimedTask act d rep i).2
  | TopOp.addCond act c w hto => (s.addConditionalTask act c w hto).2
  | TopOp.addCondTimed act c pd w hto =>
      (s.addConditionalTimedTask act c pd w hto).2
  | TopOp.remove pid => (s.removeTask pid).2
  | TopOp.setInterval pid i => (s.setRepeatingTaskInterval pid i).2
  | TopOp.setSeq b now => s.setAndStartSequentialMode b now
  | TopOp.stopOp => s.stop
  | TopOp.holdOp => s.hold
  | TopOp.resumeOp => s.resume
  | TopOp.loopOp now => (s.loop now).1

/-- Interpret a sequence of control-API calls. -/
def runOps (s : Scheduler) (ops : List TopOp) : Scheduler :=
  ops.foldl runOp s

/-- Whether a control-API call is `setAndStartSequentialMode`. -/
def TopOp.isSetSeq : TopOp → Bool
  | TopOp.setSeq _ _ => true
  | _ => false

/-- The store invariant on a task list: PIDs are pairwise distinct, nonzero
16-bit values, and the list respects the capacity bound. -/
def GoodT (l : List Task) : Prop :=
  (pidsOf l).Nodup ∧ (∀ p ∈ pidsOf l, 0 < p ∧ p < 65536) ∧ l.length ≤ 124

/-- The PID-store invariant of a scheduler state. -/
def Good (s : Scheduler) : Prop := GoodT s.tasks

/-- The sequential-mode no-repeat invariant. -/
def SeqNoRepeat (s : Scheduler) : Prop :=
  s.sequentialMode = true ∧ ∀ t ∈ s.tasks, t.repeat_ = false

/-- The i-th candidate value visited by the PID collision search when it
starts at `c` (1-based 16-bit values with 0 skipped). -/
def candSeq (c i : Nat) : Nat := ((c - 1 + i) % 65535) + 1

/-- Arguments of one `addTimedTask` call (action, delay, repeat, interval). -/
def AddSpec : Type := List Cmd × Nat × Bool × Nat

/-- Apply a sequence of `addTimedTask` calls. -/
def applyAdds (s : Scheduler) (l : List AddSpec) : Scheduler :=
  l.foldl (fun s q => (s.addTimedTask q.1 q.2.1 q.2.2.1 q.2.2.2).2) s

/-- The single task of the C2 scenario (created by `addTimedTask(a, D)` on
a fresh scheduler), after activation set `conditionMet` and
`executeAt = E`. -/
def c2task (act : List Cmd) (D E : Nat) : Task :=
  { PID := 1, action := act, condition := some fun _ => true,
    conditionMet := true, conditionWait := 0, postConditionDelay := D,
    executeAt := E }

/-- The scheduler state after `addTimedTask(a, D, false)` on a fresh
scheduler followed by a first (activating) `loop` call. -/
def c2State (act : List Cmd) (D : Nat) (E : Nat) : Scheduler :=
  { tasks := [c2task act D E], nextPID := 2 }

/-- The single task of the C1 scenario (created by
`addConditionalTask(a, p, W, onTimeout)` on a fresh scheduler), with the
condition deadline `E` (0 before activation). -/
def c1task (act : List Cmd) (p : Nat → Bool) (W E : Nat) : Task :=
  { PID := 1, action := act, hasOnTimeout := true, condition := some p,
    conditionMet := false, conditionWait := toI32 W, postConditionDelay := 0,
    executeAt := E }

/-- The scheduler state after `addConditionalTask(a, p, W)` on a fresh
scheduler, with the task's condition deadline at `E` (0 before the first
`loop` call activates it). -/
def c1State (act : List Cmd) (p : Nat → Bool) (W : Nat) (E : Nat) : Scheduler :=
  { tasks := [c1task act p W E], nextPID := 2 }

/-- Scenario state for claim C3: sequential mode entered at 1000, then
`addTimedTask(a,100)`, `addTimedTask(b,50)`, `addTimedTask(c,200)`
(PIDs 1, 2, 3). -/
def c3Start : Scheduler :=
  ((((initScheduler.setAndStartSequentialMode true 1000).addTimedTask
      [] 100 false 0).2.addTimedTask [] 50 false 0).2.addTimedTask
      [] 200 false 0).2

/-- C3 scenario: the four `loop` calls at 1000, 1100, 1150, 1350. -/
def c3r1 : Scheduler × List Event := c3Start.loop 1000

/-- C3 scenario after the 1100 call. -/
def c3r2 : Scheduler × List Event := c3r1.1.loop 1100

/-- C3 scenario after the 1150 call. -/
def c3r3 : Scheduler × List Event := c3r2.1.loop 1150

/-- C3 scenario after the 1350 call. -/
def c3r4 : Scheduler × List Event := c3r3.1.loop 1350

/-- C4 failing input: a single parallel task (PID 1, delay 0) whose action
adds a 10 ms task (which gets PID 2) and then calls `stop()`. -/
def c4AddThenStop : Scheduler :=
  (initScheduler.addTimedTask
    [Cmd.addTimed [] 10 false 0, Cmd.stopCmd] 0 false 0).2

/-- C4 comparison input: the action calls `stop()` first and adds after. -/
def c4StopThenAdd : Scheduler :=
  (initScheduler.addTimedTask
    [Cmd.stopCmd, Cmd.addTimed [] 10 false 0] 0 false 0).2

/-- C6 counterexample input: a scheduler whose `inLoop` flag is set (as it
is while `loop` dispatches an action) holding a task with PID 1. -/
def c6s : Scheduler := { tasks := [{ PID := 1 }], inLoop := true }

/-- C5 counterexample input: task 1 added, `stop()` called, then task 2
added before the next `loop`. -/
def c5cex : Scheduler :=
  ((((initScheduler.addTimedTask [] 5 false 0).2).stop).addTimedTask
    [] 7 false 0).2

/-- C7 counterexample input: a repeating task added in parallel mode,
followed by `setAndStartSequentialMode(true)`. -/
def c7s : Scheduler :=
  ((initScheduler.addTimedTask [] 10 true 10).2).setAndStartSequentialMode
    true 500

/-!
## Theorems

### Helper lemmas about the store operations
-/

theorem pid_of_findTask {l : List Task} {pid : Nat} {t : Task}
    (h : findTask l pid = some t) : t.PID = pid := by
  have := List.find?_some h
  simpa using this

theorem mem_of_findTask {l : List Task} {pid : Nat} {t : Task}
    (h : findTask l pid = some t) : t ∈ l :=
  List.mem_of_find?_eq_some h

theorem findTask_isSome_iff {l : List Task} {pid : Nat} :
    (findTask l pid).isSome = true ↔ pid ∈ pidsOf l := by
  constructor
  · intro h
    rcases Option.isSome_iff_exists.mp h with ⟨t, ht⟩
    have hm := mem_of_findTask ht
    have hp := pid_of_findTask ht
    exact hp ▸ List.mem_map_of_mem Task.PID hm
  · intro h
    rcases List.mem_map.mp h with ⟨t, hm, hp⟩
    exact List.find?_isSome.mpr ⟨t, hm, by simpa using hp⟩

theorem eraseTaskByPID_sublist (l : List Task) (pid : Nat) :
    (eraseTaskByPID l pid).Sublist l := by
  induction l with
  | nil => simp [eraseTaskByPID]
  | cons t ts ih =>
    unfold eraseTaskByPID
    by_cases h : (t.PID == pid) = true
    · simp [h]
    · simp only [h, if_false, Bool.false_eq_true]
      exact List.Sublist.cons₂ t ih

theorem foldl_erase_sublist (L : List Nat) (l : List Task) :
    (L.foldl eraseTaskByPID l).Sublist l := by
  induction L generalizing l with
  | nil => simp
  | cons p ps ih =>
    simp only [List.foldl_cons]
    exact List.Sublist.trans (ih _) (eraseTaskByPID_sublist l p)

theorem erase_eq_filter_of_nodup {l : List Task} (h : (pidsOf l).Nodup)
    (pid : Nat) : eraseTaskByPID l pid = l.filter fun t => !(t.PID == pid) := by
  induction l with
  | nil => simp [eraseTaskByPID]
  | cons t ts ih =>
    have hn : (pidsOf ts).Nodup := (List.nodup_cons.mp h).2
    have hni : t.PID ∉ pidsOf ts := (List.nodup_cons.mp h).1
    unfold eraseTaskByPID
    by_cases he : t.PID = pid
    · subst he
      simp only [beq_self_eq_true, if_true, List.filter_cons]
      have : ∀ u ∈ ts, (!(u.PID == t.PID)) = true := by
        intro u hu
        simp only [Bool.not_eq_true', beq_eq_false_iff_ne, ne_eq]
        intro hc
        exact hni (hc ▸ List.mem_map_of_mem Task.PID hu)
      simp [List.filter_eq_self.mpr this]
    · simp only [beq_eq_false_iff_ne, ne_eq, he, not_false_iff, if_neg,
        List.filter_cons, ih hn]
      simp [he]

theorem pidsOf_modifyFirst (f : Task → Task)
    (hf : ∀ t, (f t).PID = t.PID) (pid : Nat) (l : List Task) :
    pidsOf (modifyFirstByPID f pid l) = pidsOf l := by
  induction l with
  | nil => rfl
  | cons t ts ih =>
    unfold modifyFirstByPID
    by_cases h : (t.PID == pid) = true
    · simp [pidsOf, h, hf]
    · simp only [h, Bool.false_eq_true, if_false]
      simp only [pidsOf, List.map_cons] at ih ⊢
      rw [ih]

theorem pidsOf_modifyTask {l : List Task} {pid : Nat} {nt : Task}
    (h : nt.PID = pid) : pidsOf (modifyTaskByPID l pid nt) = pidsOf l := by
  unfold modifyTaskByPID
  induction l with
  | nil => rfl
  | cons t ts ih =>
    unfold modifyFirstByPID
    by_cases he : (t.PID == pid) = true
    · have : t.PID = pid := by simpa using he
      simp [pidsOf, he, h, this]
    · simp only [he, Bool.false_eq_true, if_false]
      simp only [pidsOf, List.map_cons] at ih ⊢
      rw [ih]

theorem map_eq_self_of {α : Type} {f : α → α} {l : List α}
    (h : ∀ x ∈ l, f x = x) : l.map f = l := by
  induction l with
  | nil => rfl
  | cons a as ih =>
    simp only [List.map_cons, h a (List.mem_cons_self a as)]
    rw [ih fun x hx => h x (List.mem_cons_of_mem a hx)]

theorem pidsOf_map {f : Task → Task} (hf : ∀ t, (f t).PID = t.PID)
    (l : List Task) : pidsOf (l.map f) = pidsOf l := by
  simp only [pidsOf, List.map_map]
  exact List.map_congr_left fun t _ => hf t

theorem pidsOf_append (l₁ l₂ : List Task) :
    pidsOf (l₁ ++ l₂) = pidsOf l₁ ++ pidsOf l₂ := by
  simp [pidsOf]

theorem length_pidsOf (l : List Task) : (pidsOf l).length = l.length := by
  simp [pidsOf]

/-!
### The PID allocator
-/

theorem candSeq_bounds (c i : Nat) : 1 ≤ candSeq c i ∧ candSeq c i ≤ 65535 := by
  unfold candSeq
  have := Nat.mod_lt (c - 1 + i) (show 0 < 65535 by decide)
  omega

theorem candSeq_zero {c : Nat} (h1 : 1 ≤ c) (h2 : c ≤ 65535) :
    candSeq c 0 = c := by
  unfold candSeq
  have : (c - 1) % 65535 = c - 1 := Nat.mod_eq_of_lt (by omega)
  omega

theorem bumpPID_eq_candSeq {c : Nat} (h1 : 1 ≤ c) (h2 : c ≤ 65535) :
    bumpPID c = candSeq c 1 := by
  unfold bumpPID candSeq
  by_cases hc : c = 65535
  · subst hc; decide
  · have hlt : c + 1 < 65536 := by omega
    have h0 : (c + 1) % 65536 = c + 1 := Nat.mod_eq_of_lt hlt
    have h1' : (c - 1 + 1) % 65535 = c - 1 + 1 := Nat.mod_eq_of_lt (by omega)
    simp only [h0, h1']
    rw [if_neg (by omega : ¬c + 1 = 0)]
    omega

theorem candSeq_shift {c : Nat} (h1 : 1 ≤ c) (h2 : c ≤ 65535) (i : Nat) :
    candSeq (bumpPID c) i = candSeq c (i + 1) := by
  rw [bumpPID_eq_candSeq h1 h2]
  unfold candSeq
  have : (c - 1 + 1) % 65535 + 1 - 1 + i = (c - 1 + 1) % 65535 + i := by omega
  rw [this, Nat.mod_add_mod]
  have : c - 1 + 1 + i = c - 1 + (i + 1) := by omega
  rw [this]

theorem candSeq_inj {c i j : Nat} (hi : i < 65535) (hj : j < 65535)
    (h : candSeq c i = candSeq c j) : i = j := by
  unfold candSeq at h
  have h' : (c - 1 + i) % 65535 = (c - 1 + j) % 65535 := by omega
  have hm : Nat.ModEq 65535 i j := Nat.ModEq.add_left_cancel' (c - 1) h'
  have := hm
  unfold Nat.ModEq at this
  rw [Nat.mod_eq_of_lt hi, Nat.mod_eq_of_lt hj] at this
  exact this

theorem exists_free_cand {pids : List Nat} (h : pids.length ≤ 65534)
    (c : Nat) : ∃ i, i < 65535 ∧ candSeq c i ∉ pids := by
  by_contra hc
  push_neg at hc
  have hsub : ((List.range 65535).map (candSeq c)) ⊆ pids := by
    intro x hx
    rcases List.mem_map.mp hx with ⟨i, hi, rfl⟩
    exact hc i (List.mem_range.mp hi)
  have hnd : ((List.range 65535).map (candSeq c)).Nodup := by
    refine List.Nodup.map_on ?_ (List.nodup_range 65535)
    intro i hi j hj hij
    exact candSeq_inj (List.mem_range.mp hi) (List.mem_range.mp hj) hij
  have := (List.subperm_of_subset hnd hsub).length_le
  simp at this
  omega

theorem findFreePID_spec {pids : List Nat} :
    ∀ (fuel c : Nat), 1 ≤ c → c ≤ 65535 →
      (∃ i, i < fuel ∧ candSeq c i ∉ pids) →
      findFreePID pids fuel c ∉ pids ∧ 1 ≤ findFreePID pids fuel c ∧
        findFreePID pids fuel c ≤ 65535 := by
  intro fuel
  induction fuel with
  | zero => intro c _ _ h; rcases h with ⟨i, hi, _⟩; omega
  | succ fuel ih =>
    intro c h1 h2 h
    unfold findFreePID
    by_cases hc : c ∈ pids
    · rw [if_pos hc]
      rcases h with ⟨i, hi, hni⟩
      have hi0 : i ≠ 0 := by
        intro h0; subst h0; rw [candSeq_zero h1 h2] at hni; exact hni hc
      rcases Nat.exists_eq_succ_of_ne_zero hi0 with ⟨j, rfl⟩
      have hb := candSeq_bounds c 1
      rw [← bumpPID_eq_candSeq h1 h2] at hb
      refine ih (bumpPID c) hb.1 hb.2 ⟨j, by omega, ?_⟩
      rw [candSeq_shift h1 h2]
      exact hni
    · rw [if_neg hc]
      exact ⟨hc, h1, h2⟩

/-- The allocator returns a nonzero 16-bit PID absent from the store and
leaves the store itself untouched. -/
theorem getAndIncrementPID_spec (s : Scheduler)
    (h : s.tasks.length ≤ 65534) :
    (s.getAndIncrementPID).1 ∉ pidsOf s.tasks ∧
      0 < (s.getAndIncrementPID).1 ∧ (s.getAndIncrementPID).1 < 65536 ∧
      (s.getAndIncrementPID).2.tasks = s.tasks := by
  have hlen : (pidsOf s.tasks).length ≤ 65534 := by
    rw [length_pidsOf]; exact h
  have hb1 : 1 ≤ startPID s.nextPID := by
    unfold startPID; split <;> omega
  have hb2 : startPID s.nextPID ≤ 65535 := by
    unfold startPID
    have := Nat.mod_lt s.nextPID (show 0 < 65536 by decide)
    split <;> omega
  have hmain := findFreePID_spec 65535 (startPID s.nextPID) hb1 hb2
    (exists_free_cand hlen (startPID s.nextPID))
  refine ⟨hmain.1, ?_, ?_, rfl⟩ <;>
    · unfold Scheduler.getAndIncrementPID
      omega

/-!
### Preservation of the PID-store invariant
-/

theorem GoodT_of_pids_eq {l l' : List Task} (h : pidsOf l' = pidsOf l)
    (hg : GoodT l) : GoodT l' := by
  obtain ⟨h1, h2, h3⟩ := hg
  refine ⟨h ▸ h1, h ▸ h2, ?_⟩
  have e1 := length_pidsOf l'
  have e2 := length_pidsOf l
  rw [h] at e1
  omega

theorem GoodT_sublist {l l' : List Task} (h : l'.Sublist l) (hg : GoodT l) :
    GoodT l' := by
  obtain ⟨h1, h2, h3⟩ := hg
  have hp : (pidsOf l').Sublist (pidsOf l) := h.map Task.PID
  exact ⟨h1.sublist hp, fun p hp' => h2 p (hp.subset hp'),
    le_trans h.length_le h3⟩

theorem GoodT_concat {l : List Task} {t : Task} (hg : GoodT l)
    (hlen : l.length < 124) (hfresh : t.PID ∉ pidsOf l) (h0 : 0 < t.PID)
    (h1 : t.PID < 65536) : GoodT (l ++ [t]) := by
  obtain ⟨g1, g2, g3⟩ := hg
  refine ⟨?_, ?_, by simp; omega⟩
  · rw [pidsOf_append]
    rw [List.nodup_append]
    refine ⟨g1, List.nodup_singleton _, ?_⟩
    intro p hp hq
    simp [pidsOf] at hq
    exact hfresh (hq ▸ hp)
  · intro p hp
    rw [pidsOf_append] at hp
    rcases List.mem_append.mp hp with h | h
    · exact g2 p h
    · have : p = t.PID := by simpa [pidsOf] using h
      subst this
      exact ⟨h0, h1⟩

/-- `addTimedTask` either rejects for capacity (state unchanged) or appends
one fresh task. -/
theorem addTimedTask_cases (s : Scheduler) (act : List Cmd) (d : Nat)
    (rep : Bool) (i : Nat) :
    (s.tasks.length ≥ 124 ∧ s.addTimedTask act d rep i = (0, s)) ∨
    (s.tasks.length < 124 ∧ ∃ t : Task,
      (s.addTimedTask act d rep i).1 = t.PID ∧
      (s.addTimedTask act d rep i).2 =
        { s with tasks := s.tasks ++ [t],
                 nextPID := (t.PID + 1) % 65536 } ∧
      t.PID ∉ pidsOf s.tasks ∧ 0 < t.PID ∧ t.PID < 65536 ∧
      t.repeat_ = (if s.sequentialMode && rep then false else rep)) := by
  unfold Scheduler.addTimedTask
  by_cases hc : s.tasks.length ≥ MAX_TASKS
  · left
    rw [if_pos hc]
    exact ⟨hc, rfl⟩
  · right
    have hlen : s.tasks.length < 124 := by
      unfold MAX_TASKS at hc; omega
    have hspec := getAndIncrementPID_spec s (by omega)
    rw [if_neg hc]
    exact ⟨hlen, _, rfl, rfl, hspec.1, hspec.2.1, hspec.2.2.1, rfl⟩

/-- `addConditionalTask` either rejects for capacity or appends one fresh
non-repeating task. -/
theorem addConditionalTask_cases (s : Scheduler) (act : List Cmd)
    (c : Nat → Bool) (w : Nat) (hto : Bool) :
    (s.tasks.length ≥ 124 ∧ s.addConditionalTask act c w hto = (0, s)) ∨
    (s.tasks.length < 124 ∧ ∃ t : Task,
      (s.addConditionalTask act c w hto).1 = t.PID ∧
      (s.addConditionalTask act c w hto).2 =
        { s with tasks := s.tasks ++ [t],
                 nextPID := (t.PID + 1) % 65536 } ∧
      t.PID ∉ pidsOf s.tasks ∧ 0 < t.PID ∧ t.PID < 65536 ∧
      t.repeat_ = false) := by
  unfold Scheduler.addConditionalTask
  by_cases hc : s.tasks.length ≥ MAX_TASKS
  · left
    rw [if_pos hc]
    exact ⟨hc, rfl⟩
  · right
    have hlen : s.tasks.length < 124 := by
      unfold MAX_TASKS at hc; omega
    have hspec := getAndIncrementPID_spec s (by omega)
    rw [if_neg hc]
    exact ⟨hlen, _, rfl, rfl, hspec.1, hspec.2.1, hspec.2.2.1, rfl⟩

/-- `addConditionalTimedTask` either rejects for capacity or appends one
fresh non-repeating task. -/
theorem addConditionalTimedTask_cases (s : Scheduler) (act : List Cmd)
    (c : Nat → Bool) (pd w : Nat) (hto : Bool) :
    (s.tasks.length ≥ 124 ∧
      s.addConditionalTimedTask act c pd w hto = (0, s)) ∨
    (s.tasks.length < 124 ∧ ∃ t : Task,
      (s.addConditionalTimedTask act c pd w hto).1 = t.PID ∧
      (s.addConditionalTimedTask act c pd w hto).2 =
        { s with tasks := s.tasks ++ [t],
                 nextPID := (t.PID + 1) % 65536 } ∧
      t.PID ∉ pidsOf s.tasks ∧ 0 < t.PID ∧ t.PID < 65536 ∧
      t.repeat_ = false) := by
  unfold Scheduler.addConditionalTimedTask
  by_cases hc : s.tasks.length ≥ MAX_TASKS
  · left
    rw [if_pos hc]
    exact ⟨hc, rfl⟩
  · right
    have hlen : s.tasks.length < 124 := by
      unfold MAX_TASKS at hc; omega
    have hspec := getAndIncrementPID_spec s (by omega)
    rw [if_neg hc]
    exact ⟨hlen, _, rfl, rfl, hspec.1, hspec.2.1, hspec.2.2.1, rfl⟩

theorem Good_addTimedTask {s : Scheduler} (hg : Good s) (act : List Cmd)
    (d : Nat) (rep : Bool) (i : Nat) : Good (s.addTimedTask act d rep i).2 := by
  rcases addTimedTask_cases s act d rep i with ⟨_, h⟩ | ⟨hlen, t, _, h2, h3, h4, h5, _⟩
  · rw [h]; exact hg
  · rw [h2]
    exact GoodT_concat hg hlen h3 h4 h5

theorem Good_addConditionalTask {s : Scheduler} (hg : Good s)
    (act : List Cmd) (c : Nat → Bool) (w : Nat) (hto : Bool) :
    Good (s.addConditionalTask act c w hto).2 := by
  rcases addConditionalTask_cases s act c w hto with ⟨_, h⟩ | ⟨hlen, t, _, h2, h3, h4, h5, _⟩
  · rw [h]; exact hg
  · rw [h2]
    exact GoodT_concat hg hlen h3 h4 h5

theorem Good_addConditionalTimedTask {s : Scheduler} (hg : Good s)
    (act : List Cmd) (c : Nat → Bool) (pd w : Nat) (hto : Bool) :
    Good (s.addConditionalTimedTask act c pd w hto).2 := by
  rcases addConditionalTimedTask_cases s act c pd w hto with ⟨_, h⟩ | ⟨hlen, t, _, h2, h3, h4, h5, _⟩
  · rw [h]; exact hg
  · rw [h2]
    exact GoodT_concat hg hlen h3 h4 h5

theorem Good_removeTask {s : Scheduler} (hg : Good s) (pid : Nat) :
    Good (s.removeTask pid).2 := by
  unfold Scheduler.removeTask
  split <;> exact hg

theorem Good_setRepeatingTaskInterval {s : Scheduler} (hg : Good s)
    (pid : Nat) (i : Nat) : Good (s.setRepeatingTaskInterval pid i).2 := by
  unfold Scheduler.setRepeatingTaskInterval
  by_cases hl : s.inLoop
  · rw [if_pos hl]; exact hg
  · rw [if_neg hl]
    cases hf : findTask s.tasks pid with
    | none => exact hg
    | some t =>
      dsimp only
      have hp : t.PID = pid := pid_of_findTask hf
      by_cases hr : !t.repeat_
      · rw [if_pos hr]; exact hg
      · rw [if_neg hr]
        exact GoodT_of_pids_eq (pidsOf_modifyTask hp) hg

theorem Good_clearMarked {s : Scheduler} (hg : Good s) :
    Good s.clearMarkedForRemoval :=
  GoodT_sublist (foldl_erase_sublist _ _) hg

theorem Good_runCmd {s : Scheduler} (hg : Good s) (c : Cmd) :
    Good (s.runCmd c) := by
  cases c with
  | addTimed act d rep i => exact Good_addTimedTask hg act d rep i
  | addCond act p w hto => exact Good_addConditionalTask hg act p w hto
  | stopCmd => exact hg
  | removeCmd pid => exact Good_removeTask hg pid
  | nop => exact hg

theorem Good_runAction (a : List Cmd) :
    ∀ s : Scheduler, Good s → Good (s.runAction a) := by
  induction a with
  | nil => intro s hg; exact hg
  | cons c cs ih =>
    intro s hg
    unfold Scheduler.runAction at ih ⊢
    rw [List.foldl_cons]
    exact ih _ (Good_runCmd hg c)

theorem activate_pid (now : Nat) (t : Task) :
    (activateParallel now t).PID = t.PID := by
  unfold activateParallel Task.setExecutionTime
  split_ifs <;> rfl

theorem classify_pidsOf (now : Nat) (l : List Task) :
    pidsOf (classifyParallel now l).1 = pidsOf l := by
  induction l with
  | nil => rfl
  | cons t ts ih =>
    unfold classifyParallel
    simp only []
    split_ifs <;> simp [pidsOf, Task.setExecutionTime] <;>
      simpa [pidsOf] using ih

theorem forceNoRepeat_pidsOf (ps : List Nat) :
    ∀ l : List Task, pidsOf (forceNoRepeat l ps).1 = pidsOf l := by
  induction ps with
  | nil => intro l; rfl
  | cons p pr ih =>
    intro l
    unfold forceNoRepeat
    by_cases h : (findTask l p).isSome
    · simp only [h, if_true]
      rw [ih]
      exact pidsOf_modifyFirst (fun t => { t with repeat_ := false })
        (fun t => rfl) p l
    · simp only [h, Bool.false_eq_true, if_false]
      exact ih l

theorem Good_dispatch (orig : List Nat) :
    ∀ (pending : List Nat) (s : Scheduler) (evs : List Event),
      Good s → Good (dispatchParallel s orig pending evs).1 := by
  intro pending
  induction pending with
  | nil => intro s evs hg; exact hg
  | cons pid rest ih =>
    intro s evs hg
    unfold dispatchParallel
    cases hf : findTask s.tasks pid with
    | none => exact ih s evs hg
    | some t =>
      simp only []
      have hg2 : Good (s.runAction t.action) := Good_runAction _ _ hg
      by_cases hw : (s.runAction t.action).will_stop
      · simp only [hw, if_true]
        exact GoodT_of_pids_eq (forceNoRepeat_pidsOf _ _) hg2
      · simp only [hw, Bool.false_eq_true, if_false]
        exact ih _ _ hg2

theorem Good_reconcile :
    ∀ (pending : List Nat) (s : Scheduler) (rps : List Nat),
      Good s → Good (reconcile s pending rps).1 := by
  intro pending
  induction pending with
  | nil => intro s rps hg; exact hg
  | cons pid rest ih =>
    intro s rps hg
    unfold reconcile
    cases hf : findTask s.tasks pid with
    | none => exact ih s rps hg
    | some t =>
      simp only []
      have hp : t.PID = pid := pid_of_findTask hf
      by_cases hr : t.repeat_
      · simp only [hr, if_true]
        exact ih _ _ (GoodT_of_pids_eq (pidsOf_modifyTask hp) hg)
      · simp only [hr, Bool.false_eq_true, if_false]
        exact ih _ _ hg

theorem Good_loopParallel {s : Scheduler} (hg : Good s) (now : Nat) :
    Good (s.loopParallel now).1 := by
  unfold Scheduler.loopParallel
  set c := classifyParallel now (s.tasks.map (activateParallel now)) with hc
  set s1 : Scheduler := { s with tasks := c.1 } with hs1
  set d := dispatchParallel s1 c.2.1 c.2.1 [] with hd
  set r := reconcile d.1 d.2.1 c.2.2.1 with hr
  have h1 : Good s1 := by
    refine GoodT_of_pids_eq ?_ hg
    show pidsOf c.1 = pidsOf s.tasks
    rw [hc, classify_pidsOf]
    exact pidsOf_map (activate_pid now) s.tasks
  have h2 : Good d.1 := by
    rw [hd]
    exact Good_dispatch c.2.1 c.2.1 s1 [] h1
  have h3 : Good r.1 := by
    rw [hr]
    exact Good_reconcile d.2.1 d.1 c.2.2.1 h2
  exact GoodT_sublist (foldl_erase_sublist _ _) h3

theorem Good_loopSequential {s : Scheduler} (hg : Good s) (now : Nat) :
    Good (s.loopSequential now).1 := by
  unfold Scheduler.loopSequential
  cases hts : s.tasks with
  | nil => exact hg
  | cons t0 rest =>
    have hgt : GoodT (t0 :: rest) := by
      rw [← hts]; exact hg
    dsimp only
    split_ifs <;> dsimp only
    · exact GoodT_of_pids_eq (pidsOf_modifyTask rfl) hgt
    · exact GoodT_sublist (eraseTaskByPID_sublist _ _) hgt
    · exact GoodT_sublist (eraseTaskByPID_sublist _ _) hgt
    · exact GoodT_of_pids_eq (pidsOf_modifyTask rfl) hgt
    · exact hg
    · exact GoodT_sublist (foldl_erase_sublist _ _)
        (Good_runAction _ _ hg)
    · exact GoodT_sublist (eraseTaskByPID_sublist _ _)
        (Good_runAction _ _ hg)
    · exact GoodT_of_pids_eq (pidsOf_modifyTask rfl) hgt
    · exact hg

theorem Good_loopBody {s2 : Scheduler} (hg : Good s2) (n : Nat) :
    Good (if s2.sequentialMode = true then s2.loopSequential n
          else s2.loopParallel n).1 := by
  split_ifs
  · exact Good_loopSequential hg n
  · exact Good_loopParallel hg n

theorem Good_loop {s : Scheduler} (hg : Good s) (now : Nat) :
    Good (s.loop now).1 := by
  unfold Scheduler.loop
  by_cases h1 : s.tasks.isEmpty || s.onHold
  · rw [if_pos h1]; exact hg
  · rw [if_neg h1]
    by_cases h2 : s.will_stop
    · rw [if_pos h2]
      exact Good_clearMarked hg
    · rw [if_neg h2]
      by_cases hled : s.tasksToRemove.length > 0
      · rw [if_pos hled]
        have hgm : Good ({ s.clearMarkedForRemoval with inLoop := true } :
            Scheduler) := Good_clearMarked hg
        exact Good_loopBody hgm (U32 now)
      · rw [if_neg hled]
        have hgm : Good ({ s with inLoop := true } : Scheduler) := hg
        exact Good_loopBody hgm (U32 now)

theorem Good_runOp {s : Scheduler} (hg : Good s) (op : TopOp) :
    Good (runOp s op) := by
  cases op with
  | addTimed act d rep i => exact Good_addTimedTask hg act d rep i
  | addCond act c w hto => exact Good_addConditionalTask hg act c w hto
  | addCondTimed act c pd w hto =>
      exact Good_addConditionalTimedTask hg act c pd w hto
  | remove pid => exact Good_removeTask hg pid
  | setInterval pid i => exact Good_setRepeatingTaskInterval hg pid i
  | setSeq b now => exact hg
  | stopOp => exact hg
  | holdOp => exact hg
  | resumeOp => exact hg
  | loopOp now => exact Good_loop hg now

theorem Good_runOps (ops : List TopOp) :
    ∀ s : Scheduler, Good s → Good (runOps s ops) := by
  induction ops with
  | nil => intro s hg; exact hg
  | cons op rest ih =>
    intro s hg
    unfold runOps at ih ⊢
    rw [List.foldl_cons]
    exact ih _ (Good_runOp hg op)

theorem Good_init : Good initScheduler := by
  refine ⟨List.nodup_nil, ?_, ?_⟩ <;> simp [initScheduler, pidsOf]

/-- C8: every `getAndIncrementPID()` call (in any state whose store does
not hold every nonzero 16-bit value, which the 124-task capacity
guarantees) returns a PID that is nonzero and distinct from the PID of
every task currently in the store; and after any sequence of control-API
operations from a fresh scheduler, the stored PIDs are pairwise distinct
and nonzero. -/
theorem c8_pid_unique :
    (∀ s : Scheduler, s.tasks.length ≤ 65534 →
      (s.getAndIncrementPID).1 ≠ 0 ∧
        (s.getAndIncrementPID).1 ∉ pidsOf s.tasks) ∧
    (∀ ops : List TopOp,
      (pidsOf (runOps initScheduler ops).tasks).Nodup ∧
        ∀ p ∈ pidsOf (runOps initScheduler ops).tasks, p ≠ 0) := by
  constructor
  · intro s h
    have hspec := getAndIncrementPID_spec s h
    exact ⟨by omega, hspec.1⟩
  · intro ops
    have hg := Good_runOps ops initScheduler Good_init
    exact ⟨hg.1, fun p hp => by have := hg.2.1 p hp; omega⟩

/-- C8, witness. -/
theorem c8_pid_unique_witness :
    ((initScheduler.getAndIncrementPID).1 ≠ 0 ∧
      (initScheduler.getAndIncrementPID).1 ∉ pidsOf initScheduler.tasks) ∧
    ((pidsOf (runOps initScheduler [TopOp.addTimed [] 5 false 0,
        TopOp.addTimed [] 7 false 0, TopOp.loopOp 3]).tasks).Nodup ∧
      ∀ p ∈ pidsOf (runOps initScheduler [TopOp.addTimed [] 5 false 0,
        TopOp.addTimed [] 7 false 0, TopOp.loopOp 3]).tasks, p ≠ 0) :=
  ⟨c8_pid_unique.1 initScheduler (by decide),
   c8_pid_unique.2 [TopOp.addTimed [] 5 false 0,
     TopOp.addTimed [] 7 false 0, TopOp.loopOp 3]⟩

/-- C9: after every sequence of control-API operations from a fresh
scheduler `taskCount() ≤ 124`; and any add-family call made on a state with
`taskCount() ≥ 124` returns PID 0 and leaves the scheduler — in particular
the task store and every task in it — completely unchanged. -/
theorem c9_capacity :
    (∀ ops : List TopOp, (runOps initScheduler ops).tasks.length ≤ 124) ∧
    (∀ (s : Scheduler) (act : List Cmd) (d : Nat) (rep : Bool) (i : Nat),
      s.tasks.length ≥ 124 → s.addTimedTask act d rep i = (0, s)) ∧
    (∀ (s : Scheduler) (act : List Cmd) (c : Nat → Bool) (w : Nat)
      (hto : Bool),
      s.tasks.length ≥ 124 → s.addConditionalTask act c w hto = (0, s)) ∧
    (∀ (s : Scheduler) (act : List Cmd) (c : Nat → Bool) (pd w : Nat)
      (hto : Bool),
      s.tasks.length ≥ 124 →
        s.addConditionalTimedTask act c pd w hto = (0, s)) := by
  refine ⟨fun ops => (Good_runOps ops initScheduler Good_init).2.2,
    ?_, ?_, ?_⟩
  · intro s act d rep i h
    unfold Scheduler.addTimedTask
    rw [if_pos (show s.tasks.length ≥ MAX_TASKS by unfold MAX_TASKS; omega)]
  · intro s act c w hto h
    unfold Scheduler.addConditionalTask
    rw [if_pos (show s.tasks.length ≥ MAX_TASKS by unfold MAX_TASKS; omega)]
  · intro s act c pd w hto h
    unfold Scheduler.addConditionalTimedTask
    rw [if_pos (show s.tasks.length ≥ MAX_TASKS by unfold MAX_TASKS; omega)]

/-!
### Preservation of the sequential no-repeat invariant
-/

theorem mem_modifyTask {l : List Task} {pid : Nat} {nt u : Task}
    (h : u ∈ modifyTaskByPID l pid nt) : u ∈ l ∨ u = nt := by
  unfold modifyTaskByPID at h
  induction l with
  | nil => simp [modifyFirstByPID] at h
  | cons t ts ih =>
    unfold modifyFirstByPID at h
    by_cases he : (t.PID == pid) = true
    · rw [if_pos he] at h
      rcases List.mem_cons.mp h with h | h
      · exact Or.inr h
      · exact Or.inl (List.mem_cons_of_mem t h)
    · rw [if_neg he] at h
      rcases List.mem_cons.mp h with h | h
      · exact Or.inl (h ▸ List.mem_cons_self t ts)
      · rcases ih h with h | h
        · exact Or.inl (List.mem_cons_of_mem t h)
        · exact Or.inr h

theorem forall_modifyTask {P : Task → Prop} {l : List Task} {pid : Nat}
    {nt : Task} (hall : ∀ t ∈ l, P t) (hnt : P nt) :
    ∀ t ∈ modifyTaskByPID l pid nt, P t := by
  intro u hu
  rcases mem_modifyTask hu with h | h
  · exact hall u h
  · exact h ▸ hnt

theorem forall_sublist {P : Task → Prop} {l l' : List Task}
    (h : l'.Sublist l) (hall : ∀ t ∈ l, P t) : ∀ t ∈ l', P t :=
  fun t ht => hall t (h.subset ht)

theorem seqActivate_repeat (s : Scheduler) (t : Task) :
    (seqActivate s t).1.repeat_ = t.repeat_ := by
  unfold seqActivate Task.setExecutionTime
  dsimp only
  split_ifs <;> rfl

theorem SNR_addTimedTask {s : Scheduler} (hs : SeqNoRepeat s)
    (act : List Cmd) (d : Nat) (rep : Bool) (i : Nat) :
    SeqNoRepeat (s.addTimedTask act d rep i).2 := by
  rcases addTimedTask_cases s act d rep i with ⟨_, h⟩ | ⟨_, t, _, h2, _, _, _, hrep⟩
  · rw [h]; exact hs
  · rw [h2]
    refine ⟨hs.1, ?_⟩
    intro u hu
    rcases List.mem_append.mp hu with h | h
    · exact hs.2 u h
    · have : u = t := by simpa using h
      subst this
      rw [hrep, hs.1]
      cases rep <;> rfl

theorem SNR_addConditionalTask {s : Scheduler} (hs : SeqNoRepeat s)
    (act : List Cmd) (c : Nat → Bool) (w : Nat) (hto : Bool) :
    SeqNoRepeat (s.addConditionalTask act c w hto).2 := by
  rcases addConditionalTask_cases s act c w hto with ⟨_, h⟩ | ⟨_, t, _, h2, _, _, _, hrep⟩
  · rw [h]; exact hs
  · rw [h2]
    refine ⟨hs.1, ?_⟩
    intro u hu
    rcases List.mem_append.mp hu with h | h
    · exact hs.2 u h
    · have : u = t := by simpa using h
      subst this
      exact hrep

theorem SNR_addConditionalTimedTask {s : Scheduler} (hs : SeqNoRepeat s)
    (act : List Cmd) (c : Nat → Bool) (pd w : Nat) (hto : Bool) :
    SeqNoRepeat (s.addConditionalTimedTask act c pd w hto).2 := by
  rcases addConditionalTimedTask_cases s act c pd w hto with ⟨_, h⟩ | ⟨_, t, _, h2, _, _, _, hrep⟩
  · rw [h]; exact hs
  · rw [h2]
    refine ⟨hs.1, ?_⟩
    intro u hu
    rcases List.mem_append.mp hu with h | h
    · exact hs.2 u h
    · have : u = t := by simpa using h
      subst this
      exact hrep

theorem SNR_removeTask {s : Scheduler} (hs : SeqNoRepeat s) (pid : Nat) :
    SeqNoRepeat (s.removeTask pid).2 := by
  unfold Scheduler.removeTask
  split <;> exact hs

theorem SNR_stop {s : Scheduler} (hs : SeqNoRepeat s) :
    SeqNoRepeat s.stop := hs

theorem SNR_setRepeatingTaskInterval {s : Scheduler} (hs : SeqNoRepeat s)
    (pid i : Nat) : SeqNoRepeat (s.setRepeatingTaskInterval pid i).2 := by
  unfold Scheduler.setRepeatingTaskInterval
  by_cases hl : s.inLoop
  · rw [if_pos hl]; exact hs
  · rw [if_neg hl]
    cases hf : findTask s.tasks pid with
    | none => exact hs
    | some t =>
      dsimp only
      have : t.repeat_ = false := hs.2 t (mem_of_findTask hf)
      rw [if_pos (by rw [this]; rfl)]
      exact hs

theorem SNR_runCmd {s : Scheduler} (hs : SeqNoRepeat s) (c : Cmd) :
    SeqNoRepeat (s.runCmd c) := by
  cases c with
  | addTimed act d rep i => exact SNR_addTimedTask hs act d rep i
  | addCond act p w hto => exact SNR_addConditionalTask hs act p w hto
  | stopCmd => exact hs
  | removeCmd pid => exact SNR_removeTask hs pid
  | nop => exact hs

theorem SNR_runAction (a : List Cmd) :
    ∀ s : Scheduler, SeqNoRepeat s → SeqNoRepeat (s.runAction a) := by
  induction a with
  | nil => intro s hs; exact hs
  | cons c cs ih =>
    intro s hs
    unfold Scheduler.runAction at ih ⊢
    rw [List.foldl_cons]
    exact ih _ (SNR_runCmd hs c)

theorem SNR_clearMarked {s : Scheduler} (hs : SeqNoRepeat s) :
    SeqNoRepeat s.clearMarkedForRemoval :=
  ⟨hs.1, forall_sublist (foldl_erase_sublist _ _) hs.2⟩

theorem SNR_loopSequential {s : Scheduler} (hs : SeqNoRepeat s) (now : Nat) :
    SeqNoRepeat (s.loopSequential now).1 := by
  unfold Scheduler.loopSequential
  cases hts : s.tasks with
  | nil => exact hs
  | cons t0 rest =>
    have hall : ∀ t ∈ t0 :: rest, t.repeat_ = false := by
      rw [← hts]; exact hs.2
    have ht0 : (seqActivate s t0).1.repeat_ = false := by
      rw [seqActivate_repeat]
      exact hall t0 (List.mem_cons_self t0 rest)
    have hs2 := SNR_runAction (seqActivate s t0).1.action s hs
    dsimp only
    split_ifs <;> dsimp only
    · exact ⟨hs.1, forall_modifyTask hall ht0⟩
    · exact ⟨hs.1, forall_sublist (eraseTaskByPID_sublist _ _) hall⟩
    · exact ⟨hs.1, forall_sublist (eraseTaskByPID_sublist _ _) hall⟩
    · exact ⟨hs.1, forall_modifyTask hall ht0⟩
    · exact hs
    · exact ⟨hs2.1, forall_sublist (foldl_erase_sublist _ _) hs2.2⟩
    · exact ⟨hs2.1, forall_sublist (eraseTaskByPID_sublist _ _) hs2.2⟩
    · exact ⟨hs.1, forall_modifyTask hall ht0⟩
    · exact hs

theorem SNR_loopBody {s2 : Scheduler} (hs : SeqNoRepeat s2) (n : Nat) :
    SeqNoRepeat (if s2.sequentialMode = true then s2.loopSequential n
                 else s2.loopParallel n).1 := by
  rw [if_pos hs.1]
  exact SNR_loopSequential hs n

theorem SNR_loop {s : Scheduler} (hs : SeqNoRepeat s) (now : Nat) :
    SeqNoRepeat (s.loop now).1 := by
  unfold Scheduler.loop
  by_cases h1 : s.tasks.isEmpty || s.onHold
  · rw [if_pos h1]; exact hs
  · rw [if_neg h1]
    by_cases h2 : s.will_stop
    · rw [if_pos h2]
      have hm0 : SeqNoRepeat s.clearMarkedForRemoval := SNR_clearMarked hs
      exact ⟨hm0.1, hm0.2⟩
    · rw [if_neg h2]
      by_cases hled : s.tasksToRemove.length > 0
      · rw [if_pos hled]
        have hm0 : SeqNoRepeat s.clearMarkedForRemoval := SNR_clearMarked hs
        have hm : SeqNoRepeat ({ s.clearMarkedForRemoval with
            inLoop := true } : Scheduler) := ⟨hm0.1, hm0.2⟩
        exact SNR_loopBody hm (U32 now)
      · rw [if_neg hled]
        have hm : SeqNoRepeat ({ s with inLoop := true } : Scheduler) :=
          ⟨hs.1, hs.2⟩
        exact SNR_loopBody hm (U32 now)

theorem SNR_runOp {s : Scheduler} (hs : SeqNoRepeat s) (op : TopOp)
    (hop : op.isSetSeq = false) : SeqNoRepeat (runOp s op) := by
  cases op with
  | addTimed act d rep i => exact SNR_addTimedTask hs act d rep i
  | addCond act c w hto => exact SNR_addConditionalTask hs act c w hto
  | addCondTimed act c pd w hto =>
      exact SNR_addConditionalTimedTask hs act c pd w hto
  | remove pid => exact SNR_removeTask hs pid
  | setInterval pid i => exact SNR_setRepeatingTaskInterval hs pid i
  | setSeq b now => simp [TopOp.isSetSeq] at hop
  | stopOp => exact hs
  | holdOp => exact hs
  | resumeOp => exact hs
  | loopOp now => exact SNR_loop hs now

/-!
### Time arithmetic
-/

theorem U32_lt (t : Nat) : U32 t < 4294967296 :=
  Nat.mod_lt t (by decide)

theorem execTime_ne_zero (t : Nat) : execTime t ≠ 0 := by
  unfold execTime U32
  split_ifs with h
  · omega
  · omega

/-- Right after activation sets `executeAt := execTime(now + D)` with
`0 < D < 2^31`, the task is not yet ready at `now`. -/
theorem ready_after_set {D n : Nat} (h0 : 0 < D) (h31 : D < 2147483648) :
    ready n (execTime (n + D)) = false := by
  unfold ready wrapSub execTime U32
  split_ifs with h <;>
    · simp only [decide_eq_false_iff_not, not_lt]
      omega

/-!
### Behaviour of actions running inside the dispatch loop
-/

theorem removeTask_tasks (s : Scheduler) (pid : Nat) :
    (s.removeTask pid).2.tasks = s.tasks := by
  unfold Scheduler.removeTask
  split <;> rfl

theorem addTimedTask_ws (s : Scheduler) (act : List Cmd) (d : Nat)
    (rep : Bool) (i : Nat) :
    (s.addTimedTask act d rep i).2.will_stop = s.will_stop := by
  unfold Scheduler.addTimedTask
  split <;> first | rfl | (split <;> rfl)

theorem addConditionalTask_ws (s : Scheduler) (act : List Cmd)
    (c : Nat → Bool) (w : Nat) (hto : Bool) :
    (s.addConditionalTask act c w hto).2.will_stop = s.will_stop := by
  unfold Scheduler.addConditionalTask
  split <;> rfl

theorem addTimedTask_ledger (s : Scheduler) (act : List Cmd) (d : Nat)
    (rep : Bool) (i : Nat) :
    (s.addTimedTask act d rep i).2.tasksToRemove = s.tasksToRemove := by
  unfold Scheduler.addTimedTask
  split <;> first | rfl | (split <;> rfl)

theorem addConditionalTask_ledger (s : Scheduler) (act : List Cmd)
    (c : Nat → Bool) (w : Nat) (hto : Bool) :
    (s.addConditionalTask act c w hto).2.tasksToRemove = s.tasksToRemove := by
  unfold Scheduler.addConditionalTask
  split <;> rfl

/-- Every command an action runs appends zero or more fresh tasks at the
tail of the store, never removing or reordering existing ones. -/
theorem runCmd_spec (s : Scheduler) (c : Cmd) :
    ∃ new : List Task, (s.runCmd c).tasks = s.tasks ++ new ∧
      (∀ t ∈ new, t.PID ∉ pidsOf s.tasks) ∧
      ((pidsOf s.tasks).Nodup → (pidsOf (s.tasks ++ new)).Nodup) := by
  cases c with
  | addTimed act d rep i =>
    rcases addTimedTask_cases s act d rep i with ⟨_, h⟩ | ⟨_, t, _, h2, h3, _, _, _⟩
    · exact ⟨[], by show (s.addTimedTask act d rep i).2.tasks = s.tasks ++ []
                    rw [h]; simp, by simp, fun hn => by simpa using hn⟩
    · refine ⟨[t], by show (s.addTimedTask act d rep i).2.tasks = s.tasks ++ [t]
                      rw [h2], ?_, ?_⟩
      · intro u hu
        have : u = t := by simpa using hu
        subst this
        exact h3
      · intro hn
        rw [pidsOf_append, List.nodup_append]
        refine ⟨hn, List.nodup_singleton _, ?_⟩
        intro a ha hb
        simp [pidsOf] at hb
        exact h3 (hb ▸ ha)
  | addCond act p w hto =>
    rcases addConditionalTask_cases s act p w hto with ⟨_, h⟩ | ⟨_, t, _, h2, h3, _, _, _⟩
    · exact ⟨[], by show (s.addConditionalTask act p w hto).2.tasks = s.tasks ++ []
                    rw [h]; simp, by simp, fun hn => by simpa using hn⟩
    · refine ⟨[t], by show (s.addConditionalTask act p w hto).2.tasks = s.tasks ++ [t]
                      rw [h2], ?_, ?_⟩
      · intro u hu
        have : u = t := by simpa using hu
        subst this
        exact h3
      · intro hn
        rw [pidsOf_append, List.nodup_append]
        refine ⟨hn, List.nodup_singleton _, ?_⟩
        intro a ha hb
        simp [pidsOf] at hb
        exact h3 (hb ▸ ha)
  | stopCmd => exact ⟨[], by simp [Scheduler.runCmd, Scheduler.stop], by simp,
      fun hn => by simpa using hn⟩
  | removeCmd pid => exact ⟨[], by simp [Scheduler.runCmd, removeTask_tasks],
      by simp, fun hn => by simpa using hn⟩
  | nop => exact ⟨[], by simp [Scheduler.runCmd], by simp,
      fun hn => by simpa using hn⟩

/-- An action only appends fresh tasks to the store. -/
theorem runAction_spec (a : List Cmd) :
    ∀ s : Scheduler, ∃ new : List Task,
      (s.runAction a).tasks = s.tasks ++ new ∧
      (∀ t ∈ new, t.PID ∉ pidsOf s.tasks) ∧
      ((pidsOf s.tasks).Nodup → (pidsOf (s.tasks ++ new)).Nodup) := by
  induction a with
  | nil =>
    intro s
    exact ⟨[], by simp [Scheduler.runAction], by simp,
      fun hn => by simpa using hn⟩
  | cons c cs ih =>
    intro s
    have hstep : s.runAction (c :: cs) = (s.runCmd c).runAction cs := by
      unfold Scheduler.runAction
      rw [List.foldl_cons]
    rcases runCmd_spec s c with ⟨n1, e1, f1, g1⟩
    rcases ih (s.runCmd c) with ⟨n2, e2, f2, g2⟩
    refine ⟨n1 ++ n2, ?_, ?_, ?_⟩
    · rw [hstep, e2, e1, List.append_assoc]
    · intro u hu
      rcases List.mem_append.mp hu with h | h
      · exact f1 u h
      · have := f2 u h
        rw [e1, pidsOf_append] at this
        intro hc
        exact this (List.mem_append.mpr (Or.inl hc))
    · intro hn
      have := g2 (e1 ▸ g1 hn)
      rw [e1, List.append_assoc] at this
      exact this

theorem runCmd_ws_cases (s : Scheduler) (c : Cmd) :
    (s.runCmd c).will_stop = s.will_stop ∨ c = Cmd.stopCmd := by
  cases c with
  | addTimed act d rep i => exact Or.inl (addTimedTask_ws s act d rep i)
  | addCond act p w hto => exact Or.inl (addConditionalTask_ws s act p w hto)
  | stopCmd => exact Or.inr rfl
  | removeCmd pid =>
    refine Or.inl ?_
    show (s.removeTask pid).2.will_stop = s.will_stop
    unfold Scheduler.removeTask
    split <;> rfl
  | nop => exact Or.inl rfl

theorem runCmd_ledger_mono (s : Scheduler) (c : Cmd) (p : Nat)
    (h : p ∈ s.tasksToRemove) : p ∈ (s.runCmd c).tasksToRemove := by
  cases c with
  | addTimed act d rep i =>
    show p ∈ (s.addTimedTask act d rep i).2.tasksToRemove
    rw [addTimedTask_ledger]
    exact h
  | addCond act pr w hto =>
    show p ∈ (s.addConditionalTask act pr w hto).2.tasksToRemove
    rw [addConditionalTask_ledger]
    exact h
  | stopCmd =>
    show p ∈ s.tasksToRemove ++ pidsOf s.tasks
    exact List.mem_append.mpr (Or.inl h)
  | removeCmd pid =>
    show p ∈ (s.removeTask pid).2.tasksToRemove
    unfold Scheduler.removeTask
    split
    · exact List.mem_append.mpr (Or.inl h)
    · exact h
  | nop => exact h

theorem runAction_ledger_mono (a : List Cmd) :
    ∀ (s : Scheduler) (p : Nat), p ∈ s.tasksToRemove →
      p ∈ (s.runAction a).tasksToRemove := by
  induction a with
  | nil => intro s p h; exact h
  | cons c cs ih =>
    intro s p h
    have hstep : s.runAction (c :: cs) = (s.runCmd c).runAction cs := by
      unfold Scheduler.runAction
      rw [List.foldl_cons]
    rw [hstep]
    exact ih _ p (runCmd_ledger_mono s c p h)

theorem runCmd_pids_mono (s : Scheduler) (c : Cmd) (p : Nat)
    (h : p ∈ pidsOf s.tasks) : p ∈ pidsOf (s.runCmd c).tasks := by
  rcases runCmd_spec s c with ⟨n1, e1, _, _⟩
  rw [e1, pidsOf_append]
  exact List.mem_append.mpr (Or.inl h)

/-- If an action turned `will_stop` on, it must have called `stop()`, and
`stop()` ledgers every PID live at that moment; PIDs live since the start
of the action therefore end up in the removal ledger. -/
theorem runAction_ws_ledger (a : List Cmd) :
    ∀ (s : Scheduler) (p : Nat), p ∈ pidsOf s.tasks →
      s.will_stop = false → (s.runAction a).will_stop = true →
      p ∈ (s.runAction a).tasksToRemove := by
  induction a with
  | nil =>
    intro s p _ h1 h2
    rw [show s.runAction [] = s from rfl] at h2
    rw [h1] at h2
    cases h2
  | cons c cs ih =>
    intro s p hp h1 h2
    have hstep : s.runAction (c :: cs) = (s.runCmd c).runAction cs := by
      unfold Scheduler.runAction
      rw [List.foldl_cons]
    rw [hstep] at h2 ⊢
    rcases runCmd_ws_cases s c with hws | hc
    · exact ih _ p (runCmd_pids_mono s c p hp) (hws.trans h1) h2
    · subst hc
      refine runAction_ledger_mono cs _ p ?_
      show p ∈ s.tasksToRemove ++ pidsOf s.tasks
      exact List.mem_append.mpr (Or.inr hp)

theorem findTask_modifyFirst_ne (f : Task → Task)
    (hf : ∀ t, (f t).PID = t.PID) {q pid : Nat} (hne : q ≠ pid) :
    ∀ l : List Task, findTask (modifyFirstByPID f q l) pid = findTask l pid := by
  intro l
  induction l with
  | nil => rfl
  | cons t ts ih =>
    unfold modifyFirstByPID
    by_cases hq : (t.PID == q) = true
    · rw [if_pos hq]
      have htq : t.PID = q := by simpa using hq
      have h1 : ((f t).PID == pid) = false := by
        simp [hf t, htq, hne]
      have h2 : (t.PID == pid) = false := by
        simp [htq, hne]
      unfold findTask
      rw [List.find?_cons_of_neg _ (by simp [h1]),
          List.find?_cons_of_neg _ (by simp [h2])]
    · rw [if_neg hq]
      by_cases hp : (t.PID == pid) = true
      · unfold findTask
        rw [List.find?_cons_of_pos _ (by simp [hp]),
            List.find?_cons_of_pos _ (by simp [hp])]
      · unfold findTask at ih ⊢
        rw [List.find?_cons_of_neg _ (by simp [hp]),
            List.find?_cons_of_neg _ (by simp [hp])]
        exact ih

theorem findTask_modifyTask_ne {q pid : Nat} {nt : Task}
    (hnt : nt.PID ≠ pid) (hqp : q ≠ pid) :
    ∀ l : List Task, findTask (modifyTaskByPID l q nt) pid = findTask l pid := by
  intro l
  unfold modifyTaskByPID
  induction l with
  | nil => rfl
  | cons t ts ih =>
    unfold modifyFirstByPID
    by_cases hq : (t.PID == q) = true
    · rw [if_pos hq]
      have htq : t.PID = q := by simpa using hq
      unfold findTask
      rw [List.find?_cons_of_neg _ (by simp [hnt]),
          List.find?_cons_of_neg _ (by simp [htq, hqp])]
    · rw [if_neg hq]
      by_cases hp : (t.PID == pid) = true
      · unfold findTask
        rw [List.find?_cons_of_pos _ (by simp [hp]),
            List.find?_cons_of_pos _ (by simp [hp])]
      · unfold findTask at ih ⊢
        rw [List.find?_cons_of_neg _ (by simp [hp]),
            List.find?_cons_of_neg _ (by simp [hp])]
        exact ih

theorem findTask_modifyFirst_self (f : Task → Task)
    (hf : ∀ t, (f t).PID = t.PID) {pid : Nat} :
    ∀ {l : List Task} {u : Task}, findTask l pid = some u →
      findTask (modifyFirstByPID f pid l) pid = some (f u) := by
  intro l
  induction l with
  | nil => intro u h; cases h
  | cons t ts ih =>
    intro u h
    unfold modifyFirstByPID
    by_cases hq : (t.PID == pid) = true
    · rw [if_pos hq]
      have ht : findTask (t :: ts) pid = some t := by
        unfold findTask
        rw [List.find?_cons_of_pos _ (by simp [hq])]
      rw [ht] at h
      cases h
      unfold findTask
      rw [List.find?_cons_of_pos _ (by simp [hf t, hq])]
    · rw [if_neg hq]
      unfold findTask at h ih ⊢
      rw [List.find?_cons_of_neg _ (by simp [hq])] at h
      rw [List.find?_cons_of_neg _ (by simp [hq])]
      exact ih h

theorem forceNoRepeat_ne :
    ∀ (ps : List Nat) (l : List Task) (pid : Nat), pid ∉ ps →
      findTask (forceNoRepeat l ps).1 pid = findTask l pid := by
  intro ps
  induction ps with
  | nil => intro l pid _; rfl
  | cons q qs ih =>
    intro l pid hni
    have hq : q ≠ pid := fun h => hni (h ▸ List.mem_cons_self q qs)
    have hqs : pid ∉ qs := fun h => hni (List.mem_cons_of_mem q h)
    unfold forceNoRepeat
    by_cases hf : (findTask l q).isSome
    · rw [if_pos hf]
      dsimp only
      rw [ih _ pid hqs]
      exact findTask_modifyFirst_ne (fun t => { t with repeat_ := false })
        (fun t => rfl) hq l
    · rw [if_neg hf]
      exact ih l pid hqs

theorem forceNoRepeat_mem :
    ∀ (ps : List Nat) (l : List Task) (p : Nat), p ∈ ps → p ∈ pidsOf l →
      p ∈ (forceNoRepeat l ps).2 := by
  intro ps
  induction ps with
  | nil => intro l p h _; cases h
  | cons q qs ih =>
    intro l p hp hl
    unfold forceNoRepeat
    by_cases hf : (findTask l q).isSome
    · rw [if_pos hf]
      dsimp only
      rcases List.mem_cons.mp hp with h | h
      · exact h ▸ List.mem_cons_self _ _
      · refine List.mem_cons_of_mem _ (ih _ p h ?_)
        rw [pidsOf_modifyFirst (fun t => { t with repeat_ := false })
          (fun t => rfl)]
        exact hl
    · rw [if_neg hf]
      rcases List.mem_cons.mp hp with h | h
      · subst h
        exact absurd (findTask_isSome_iff.mpr hl) hf
      · exact ih l p h hl

theorem forceNoRepeat_repeat :
    ∀ (ps : List Nat) (l : List Task) (p : Nat), p ∈ ps → p ∈ pidsOf l →
      ∀ u : Task, findTask (forceNoRepeat l ps).1 p = some u →
        u.repeat_ = false := by
  intro ps
  induction ps with
  | nil => intro l p h _ u _; cases h
  | cons q qs ih =>
    intro l p hp hl u hu
    unfold forceNoRepeat at hu
    by_cases hf : (findTask l q).isSome
    · rw [if_pos hf] at hu
      dsimp only at hu
      by_cases hqs : p ∈ qs
      · refine ih _ p hqs ?_ u hu
        rw [pidsOf_modifyFirst (fun t => { t with repeat_ := false })
          (fun t => rfl)]
        exact hl
      · have hpq : p = q := by
          rcases List.mem_cons.mp hp with h | h
          · exact h
          · exact absurd h hqs
        subst hpq
        rw [forceNoRepeat_ne qs _ p hqs] at hu
        rcases Option.isSome_iff_exists.mp hf with ⟨w, hw⟩
        rw [findTask_modifyFirst_self (fun t => { t with repeat_ := false })
          (fun t => rfl) hw] at hu
        cases hu
        rfl
    · rw [if_neg hf] at hu
      rcases List.mem_cons.mp hp with h | h
      · subst h
        exact absurd (findTask_isSome_iff.mpr hl) hf
      · exact ih l p h hl u hu

theorem reconcile_pidsOf :
    ∀ (pending : List Nat) (s : Scheduler) (rps : List Nat),
      pidsOf (reconcile s pending rps).1.tasks = pidsOf s.tasks := by
  intro pending
  induction pending with
  | nil => intro s rps; rfl
  | cons pid rest ih =>
    intro s rps
    unfold reconcile
    cases hf : findTask s.tasks pid with
    | none => exact ih s rps
    | some t =>
      dsimp only
      have hp : t.PID = pid := pid_of_findTask hf
      by_cases hr : t.repeat_
      · rw [if_pos hr, ih]
        exact pidsOf_modifyTask hp
      · rw [if_neg hr]
        exact ih s _

theorem reconcile_rps_mono :
    ∀ (pending : List Nat) (s : Scheduler) (rps : List Nat) (p : Nat),
      p ∈ rps → p ∈ (reconcile s pending rps).2 := by
  intro pending
  induction pending with
  | nil => intro s rps p h; exact h
  | cons pid rest ih =>
    intro s rps p h
    unfold reconcile
    cases hf : findTask s.tasks pid with
    | none => exact ih s rps p h
    | some t =>
      dsimp only
      by_cases hr : t.repeat_
      · rw [if_pos hr]
        exact ih _ rps p h
      · rw [if_neg hr]
        exact ih s _ p (List.mem_append.mpr (Or.inl h))

theorem reconcile_collects (pid : Nat) :
    ∀ (pending : List Nat) (s : Scheduler) (rps : List Nat),
      pid ∈ pending →
      (∀ u : Task, findTask s.tasks pid = some u → u.repeat_ = false) →
      pid ∈ pidsOf s.tasks →
      pid ∈ (reconcile s pending rps).2 := by
  intro pending
  induction pending with
  | nil => intro s rps h _ _; cases h
  | cons q rest ih =>
    intro s rps hp hrep hl
    unfold reconcile
    cases hf : findTask s.tasks q with
    | none =>
      rcases List.mem_cons.mp hp with h | h
      · subst h
        exact absurd (findTask_isSome_iff.mpr hl) (by simp [hf])
      · exact ih s rps h hrep hl
    | some t =>
      dsimp only
      have htq : t.PID = q := pid_of_findTask hf
      by_cases hr : t.repeat_
      · rw [if_pos hr]
        have hq_ne : q ≠ pid := by
          intro he
          subst he
          have := hrep t hf
          rw [this] at hr
          cases hr
        have hfind : findTask (modifyTaskByPID s.tasks q ({ t with conditionMet := false, postConditionDelay := t.interval, executeAt := 0 })) pid = findTask s.tasks pid :=
          findTask_modifyTask_ne (by simpa [htq] using hq_ne) hq_ne s.tasks
        have hpids : pidsOf (modifyTaskByPID s.tasks q ({ t with conditionMet := false, postConditionDelay := t.interval, executeAt := 0 })) = pidsOf s.tasks :=
          pidsOf_modifyTask htq
        rcases List.mem_cons.mp hp with h | h
        · exact absurd h.symm hq_ne
        · refine ih _ rps h ?_ (by rw [hpids]; exact hl)
          intro u hu
          rw [hfind] at hu
          exact hrep u hu
      · rw [if_neg hr]
        rcases List.mem_cons.mp hp with h | h
        · subst h
          exact reconcile_rps_mono rest s _ pid
            (List.mem_append.mpr (Or.inr (List.mem_singleton_self pid)))
        · exact ih s _ h hrep hl

theorem mem_insertSorted (x a : Nat) :
    ∀ l : List Nat, a ∈ insertSorted x l ↔ a = x ∨ a ∈ l := by
  intro l
  induction l with
  | nil => simp [insertSorted]
  | cons y ys ih =>
    unfold insertSorted
    by_cases h : x ≤ y
    · rw [if_pos h]
      simp
    · rw [if_neg h]
      simp only [List.mem_cons, ih]
      tauto

theorem mem_sortNat (a : Nat) : ∀ l : List Nat, a ∈ sortNat l ↔ a ∈ l := by
  intro l
  unfold sortNat
  induction l with
  | nil => simp
  | cons x xs ih =>
    rw [List.foldr_cons, mem_insertSorted]
    simp only [List.mem_cons, ih]

theorem mem_uniqueSorted (a : Nat) :
    ∀ l : List Nat, a ∈ uniqueSorted l ↔ a ∈ l := by
  intro l
  induction l with
  | nil => simp [uniqueSorted]
  | cons x xs ih =>
    cases xs with
    | nil => simp [uniqueSorted]
    | cons y ys =>
      unfold uniqueSorted
      by_cases h : x = y
      · rw [if_pos h]
        rw [ih]
        subst h
        simp
      · rw [if_neg h]
        simp only [List.mem_cons] at ih ⊢
        rw [ih]

theorem foldl_erase_eq_filter (L : List Nat) :
    ∀ l : List Task, (pidsOf l).Nodup →
      L.foldl eraseTaskByPID l = l.filter fun t => !(L.contains t.PID) := by
  induction L with
  | nil =>
    intro l _
    simp
  | cons p ps ih =>
    intro l hn
    rw [List.foldl_cons, erase_eq_filter_of_nodup hn p]
    have hn2 : (pidsOf (l.filter fun t => !(t.PID == p))).Nodup := by
      refine hn.sublist ?_
      exact (List.filter_sublist l).map Task.PID
    rw [ih _ hn2, List.filter_filter]
    apply List.filter_congr
    intro t _
    simp only [List.contains_cons, Bool.not_or, Bool.and_comm]

theorem pid_not_mem_after_erase {L : List Nat} {l : List Task} {pid : Nat}
    (hn : (pidsOf l).Nodup) (hL : pid ∈ L) :
    pid ∉ pidsOf (L.foldl eraseTaskByPID l) := by
  rw [foldl_erase_eq_filter L l hn]
  intro hmem
  rcases List.mem_map.mp hmem with ⟨t, ht, hpt⟩
  have := (List.mem_filter.mp ht).2
  simp only [Bool.not_eq_eq_eq_not, Bool.not_true] at this
  rw [hpt] at this
  simp [List.contains, List.elem_iff] at this
  exact this hL

/-!
### The C2 scenario: a one-shot timed task in parallel mode
-/

theorem c2_first_loop (act : List Cmd) (D T : Nat) (hD : 0 < D)
    (h31 : D < 2147483648) :
    ((initScheduler.addTimedTask act D false 0).2).loop T =
      (c2State act D (execTime (U32 T + D)), []) := by
  have hready : ready (U32 T) (execTime (U32 T + D)) = false :=
    ready_after_set hD h31
  show Scheduler.loop { tasks := [{ PID := 1, action := act, condition := some fun _ => true, postConditionDelay := D }], nextPID := 2 } T = (c2State act D (execTime (U32 T + D)), [])
  unfold Scheduler.loop Scheduler.loopParallel
  simp only [List.map_cons, List.map_nil]
  simp [activateParallel, Task.indefinite, Task.conditionTrue, Task.setExecutionTime, classifyParallel, dispatchParallel, reconcile, sortNat, uniqueSorted, insertSorted, timeoutEvents, hready, c2State, c2task]

theorem fire_core (s3 : Scheduler) (task1 : Task) (h1 : s3.tasks = [task1])
    (hPID : task1.PID = 1) (hrep : task1.repeat_ = false)
    (hws : s3.will_stop = false) :
    (dispatchParallel s3 [1] [1] []).2.2 = [Event.exec 1] ∧
    1 ∉ pidsOf ((uniqueSorted (sortNat (reconcile (dispatchParallel s3 [1] [1] []).1 (dispatchParallel s3 [1] [1] []).2.1 []).2)).foldl eraseTaskByPID (reconcile (dispatchParallel s3 [1] [1] []).1 (dispatchParallel s3 [1] [1] []).2.1 []).1.tasks) := by
  have hfind : findTask s3.tasks 1 = some task1 := by
    rw [h1]
    unfold findTask
    rw [List.find?_cons_of_pos _ (by simp [hPID])]
  have hp3 : pidsOf s3.tasks = [1] := by
    rw [h1]
    simp [pidsOf, hPID]
  rcases runAction_spec task1.action s3 with ⟨new, e1, f1, g1⟩
  have hnodup : (pidsOf (s3.runAction task1.action).tasks).Nodup := by
    rw [e1]
    refine g1 ?_
    rw [hp3]
    exact List.nodup_singleton 1
  have h1mem : 1 ∈ pidsOf (s3.runAction task1.action).tasks := by
    rw [e1, pidsOf_append, hp3]
    exact List.mem_append.mpr (Or.inl (List.mem_singleton_self 1))
  by_cases hw : (s3.runAction task1.action).will_stop = true
  · have hd : dispatchParallel s3 [1] [1] [] = ({ s3.runAction task1.action with will_stop := false, tasks := (forceNoRepeat (s3.runAction task1.action).tasks (s3.runAction task1.action).tasksToRemove).1, tasksToRemove := [] }, (forceNoRepeat (s3.runAction task1.action).tasks (s3.runAction task1.action).tasksToRemove).2, [Event.exec 1]) := by
      unfold dispatchParallel
      rw [hfind]
      dsimp only
      rw [if_pos hw]
      rfl
    have hled : 1 ∈ (s3.runAction task1.action).tasksToRemove := by
      refine runAction_ws_ledger task1.action s3 1 ?_ hws hw
      rw [hp3]
      exact List.mem_singleton_self 1
    have hfr2 : 1 ∈ (forceNoRepeat (s3.runAction task1.action).tasks (s3.runAction task1.action).tasksToRemove).2 :=
      forceNoRepeat_mem _ _ 1 hled h1mem
    have hrep_fr : ∀ u : Task, findTask (forceNoRepeat (s3.runAction task1.action).tasks (s3.runAction task1.action).tasksToRemove).1 1 = some u → u.repeat_ = false :=
      forceNoRepeat_repeat _ _ 1 hled h1mem
    have hpids_fr : pidsOf (forceNoRepeat (s3.runAction task1.action).tasks (s3.runAction task1.action).tasksToRemove).1 = pidsOf (s3.runAction task1.action).tasks :=
      forceNoRepeat_pidsOf _ _
    rw [hd]
    refine ⟨rfl, ?_⟩
    dsimp only
    have hcol : 1 ∈ (reconcile ({ s3.runAction task1.action with will_stop := false, tasks := (forceNoRepeat (s3.runAction task1.action).tasks (s3.runAction task1.action).tasksToRemove).1, tasksToRemove := [] } : Scheduler) (forceNoRepeat (s3.runAction task1.action).tasks (s3.runAction task1.action).tasksToRemove).2 []).2 := by
      refine reconcile_collects 1 _ _ [] hfr2 hrep_fr ?_
      show 1 ∈ pidsOf (forceNoRepeat (s3.runAction task1.action).tasks (s3.runAction task1.action).tasksToRemove).1
      rw [hpids_fr]
      exact h1mem
    have hpids_rec : pidsOf (reconcile ({ s3.runAction task1.action with will_stop := false, tasks := (forceNoRepeat (s3.runAction task1.action).tasks (s3.runAction task1.action).tasksToRemove).1, tasksToRemove := [] } : Scheduler) (forceNoRepeat (s3.runAction task1.action).tasks (s3.runAction task1.action).tasksToRemove).2 []).1.tasks = pidsOf (forceNoRepeat (s3.runAction task1.action).tasks (s3.runAction task1.action).tasksToRemove).1 :=
      reconcile_pidsOf _ _ []
    refine pid_not_mem_after_erase ?_ ?_
    · rw [hpids_rec, hpids_fr]
      exact hnodup
    · rw [mem_uniqueSorted, mem_sortNat]
      exact hcol
  · have hd : dispatchParallel s3 [1] [1] [] = (s3.runAction task1.action, [1], [Event.exec 1]) := by
      unfold dispatchParallel
      rw [hfind]
      dsimp only
      rw [if_neg hw]
      rfl
    have hfind2 : findTask (s3.runAction task1.action).tasks 1 = some task1 := by
      rw [e1, h1]
      unfold findTask
      rw [List.singleton_append, List.find?_cons_of_pos _ (by simp [hPID])]
    have hrec : reconcile (s3.runAction task1.action) [1] [] = (s3.runAction task1.action, [1]) := by
      unfold reconcile
      rw [hfind2]
      dsimp only
      rw [if_neg (by rw [hrep]; exact Bool.false_ne_true)]
      rfl
    rw [hd]
    refine ⟨rfl, ?_⟩
    dsimp only
    rw [hrec]
    refine pid_not_mem_after_erase hnodup ?_
    rw [mem_uniqueSorted, mem_sortNat]
    exact List.mem_singleton_self 1

theorem c2_fire (act : List Cmd) (D E tf : Nat) (hE0 : ¬E = 0)
    (hready : ready (U32 tf) E = true) :
    ((c2State act D E).loop tf).2 = [Event.exec 1] ∧
    1 ∉ pidsOf ((c2State act D E).loop tf).1.tasks := by
  have hact : activateParallel (U32 tf) (c2task act D E) = c2task act D E := by
    simp [activateParallel, c2task, hE0]
  have hclass : classifyParallel (U32 tf) [c2task act D E] = ([c2task act D E], [1], [], []) := by
    simp [classifyParallel, c2task, Task.conditionTrue, hready]
  have hmain := fire_core ({ tasks := [c2task act D E], nextPID := 2, inLoop := true } : Scheduler) (c2task act D E) rfl rfl rfl rfl
  constructor
  · show (Scheduler.loopParallel { tasks := [c2task act D E], nextPID := 2, inLoop := true } (U32 tf)).2 = [Event.exec 1]
    unfold Scheduler.loopParallel
    dsimp only
    rw [List.map_cons, List.map_nil, hact, hclass]
    dsimp only
    rw [show timeoutEvents [] = [] from rfl, List.append_nil]
    exact hmain.1
  · show 1 ∉ pidsOf (Scheduler.loopParallel { tasks := [c2task act D E], nextPID := 2, inLoop := true } (U32 tf)).1.tasks
    unfold Scheduler.loopParallel
    dsimp only
    rw [List.map_cons, List.map_nil, hact, hclass]
    dsimp only
    exact hmain.2

theorem c2_steady (act : List Cmd) (D E t : Nat) (hE0 : ¬E = 0)
    (hready : ready (U32 t) E = false) :
    (c2State act D E).loop t = (c2State act D E, []) := by
  have hact : activateParallel (U32 t) (c2task act D E) = c2task act D E := by
    simp [activateParallel, c2task, hE0]
  have hclass : classifyParallel (U32 t) [c2task act D E] = ([c2task act D E], [], [], []) := by
    simp [classifyParallel, c2task, Task.conditionTrue, hready]
  show ({ (Scheduler.loopParallel { tasks := [c2task act D E], nextPID := 2, inLoop := true } (U32 t)).1 with inLoop := false }, (Scheduler.loopParallel { tasks := [c2task act D E], nextPID := 2, inLoop := true } (U32 t)).2) = (c2State act D E, [])
  unfold Scheduler.loopParallel
  dsimp only
  rw [List.map_cons, List.map_nil, hact, hclass]
  rfl

theorem runLoops_cons (S : Scheduler) (t : Nat) (ts : List Nat) :
    runLoops S (t :: ts) =
      ((runLoops (S.loop t).1 ts).1,
       (S.loop t).2 ++ (runLoops (S.loop t).1 ts).2) := rfl

theorem c2_run (act : List Cmd) (D E Tf : Nat) (hE0 : ¬E = 0) :
    ∀ mids : List Nat,
      (∀ t ∈ mids, ready (U32 t) E = false) →
      ready (U32 Tf) E = true →
      (runLoops (c2State act D E) (mids ++ [Tf])).2 = [Event.exec 1] ∧
      1 ∉ pidsOf (runLoops (c2State act D E) (mids ++ [Tf])).1.tasks := by
  intro mids
  induction mids with
  | nil =>
    intro _ hfire
    have hf := c2_fire act D E Tf hE0 hfire
    rw [List.nil_append, runLoops_cons]
    constructor
    · show ((c2State act D E).loop Tf).2 ++ (runLoops _ []).2 = _
      rw [show (runLoops ((c2State act D E).loop Tf).1 []).2 = [] from rfl,
        List.append_nil]
      exact hf.1
    · exact hf.2
  | cons m ms ih =>
    intro hmid hfire
    have hs := c2_steady act D E m hE0 (hmid m (List.mem_cons_self m ms))
    rw [List.cons_append, runLoops_cons, hs]
    dsimp only
    rw [List.nil_append]
    exact ih (fun t ht => hmid t (List.mem_cons_of_mem m ht)) hfire

/-!
### Stop-outside-loop semantics
-/

theorem applyAdds_spec (specs : List AddSpec) :
    ∀ s : Scheduler, ∃ new : List Task,
      (applyAdds s specs).tasks = s.tasks ++ new ∧
      (applyAdds s specs).tasksToRemove = s.tasksToRemove ∧
      (applyAdds s specs).will_stop = s.will_stop ∧
      (applyAdds s specs).onHold = s.onHold ∧
      (∀ t ∈ new, t.PID ∉ pidsOf s.tasks) ∧
      ((pidsOf s.tasks).Nodup → (pidsOf (s.tasks ++ new)).Nodup) := by
  induction specs with
  | nil =>
    intro s
    exact ⟨[], by simp [applyAdds], rfl, rfl, rfl, by simp,
      fun h => by simpa using h⟩
  | cons q qs ih =>
    intro s
    have hstep : applyAdds s (q :: qs) =
        applyAdds (s.addTimedTask q.1 q.2.1 q.2.2.1 q.2.2.2).2 qs := by
      unfold applyAdds
      rw [List.foldl_cons]
    rcases addTimedTask_cases s q.1 q.2.1 q.2.2.1 q.2.2.2 with
      ⟨_, hcap⟩ | ⟨_, t, _, heq, hfresh, h0, hlt, _⟩
    · rw [hstep, hcap]
      exact ih s
    · rw [hstep, heq]
      have ih2 := ih { s with tasks := s.tasks ++ [t], nextPID := (t.PID + 1) % 65536 }
      obtain ⟨new', e1, e2, e3, e4, e5, e6⟩ := ih2
      refine ⟨t :: new', ?_, e2, e3, e4, ?_, ?_⟩
      · rw [e1]
        simp
      · intro u hu
        rcases List.mem_cons.mp hu with h | h
        · rw [h]; exact hfresh
        · have := e5 u h
          intro hc
          exact this (by
            show u.PID ∈ pidsOf (s.tasks ++ [t])
            rw [pidsOf_append]
            exact List.mem_append.mpr (Or.inl hc))
      · intro hnd
        have hnd2 : (pidsOf (s.tasks ++ [t])).Nodup := by
          rw [pidsOf_append, List.nodup_append]
          refine ⟨hnd, List.nodup_singleton _, ?_⟩
          intro a ha hb
          simp [pidsOf] at hb
          exact hfresh (hb ▸ ha)
        have := e6 hnd2
        rw [List.append_assoc] at this
        simpa using this

/-- C5, counterexample: add task 1, call `stop()`, then add task 2, then
`loop()`.  The claim says the loop removes every then-present task
including task 2; in fact task 2 survives (only PIDs ledgered at the
`stop()` call are removed), while nothing is dispatched. -/
theorem c5_counterexample :
    pidsOf (c5cex.loop 100).1.tasks = [2] ∧ (c5cex.loop 100).2 = [] := by
  decide

/-- C5, amended: if `stop()` is called while `loop` is not executing, the
first subsequent `loop` call (store nonempty, not on hold) dispatches no
action, clears `will_stop`, drains the ledger, and removes exactly the
tasks that were present when `stop()` was called (plus previously ledgered
PIDs) — tasks added after the `stop()` call and before that `loop()`
survive. -/
theorem c5_amended (s0 : Scheduler) (specs : List AddSpec) (now : Nat)
    (hnodup : (pidsOf s0.tasks).Nodup)
    (hled : ∀ p ∈ s0.tasksToRemove, p ∈ pidsOf s0.tasks)
    (honHold : s0.onHold = false)
    (hne : (applyAdds s0.stop specs).tasks ≠ []) :
    ((applyAdds s0.stop specs).loop now).2 = [] ∧
    ((applyAdds s0.stop specs).loop now).1.tasks =
      (applyAdds s0.stop specs).tasks.drop s0.tasks.length ∧
    ((applyAdds s0.stop specs).loop now).1.will_stop = false ∧
    ((applyAdds s0.stop specs).loop now).1.tasksToRemove = [] := by
  rcases applyAdds_spec specs s0.stop with ⟨new, e1, e2, e3, e4, e5, e6⟩
  have hstop_tasks : s0.stop.tasks = s0.tasks := rfl
  rw [hstop_tasks] at e1 e5 e6
  set s2 := applyAdds s0.stop specs with hs2
  have hws : s2.will_stop = true := by rw [e3]; rfl
  have hoh : s2.onHold = false := by rw [e4]; exact honHold
  have hledger : s2.tasksToRemove = s0.tasksToRemove ++ pidsOf s0.tasks := by
    rw [e2]; rfl
  have hempty : s2.tasks.isEmpty = false := by
    cases h : s2.tasks with
    | nil => exact absurd h hne
    | cons a l => rfl
  have hloop : s2.loop now =
      ({ s2.clearMarkedForRemoval with will_stop := false }, []) := by
    unfold Scheduler.loop
    rw [if_neg (by rw [hempty, hoh]; simp), if_pos hws]
  have htasks : s2.clearMarkedForRemoval.tasks = new := by
    show s2.tasksToRemove.foldl eraseTaskByPID s2.tasks = new
    have hnd2 : (pidsOf s2.tasks).Nodup := by rw [e1]; exact e6 hnodup
    rw [foldl_erase_eq_filter _ _ hnd2, e1, List.filter_append]
    have hold_nil : (s0.tasks.filter
        fun t => !(s2.tasksToRemove.contains t.PID)) = [] := by
      rw [List.filter_eq_nil_iff]
      intro t ht
      simp only [Bool.not_eq_true', Bool.not_eq_true, Bool.not_not]
      rw [hledger]
      have : t.PID ∈ pidsOf s0.tasks := List.mem_map_of_mem Task.PID ht
      simp [List.contains, List.elem_iff]
      exact fun _ => this
    have hnew_all : (new.filter
        fun t => !(s2.tasksToRemove.contains t.PID)) = new := by
      rw [List.filter_eq_self]
      intro t ht
      rw [hledger]
      have hn : t.PID ∉ pidsOf s0.tasks := e5 t ht
      simp only [Bool.not_eq_eq_eq_not, Bool.not_true]
      simp [List.contains, List.elem_iff]
      exact ⟨fun hc => hn (hled _ hc), fun hc => hn hc⟩
    rw [hold_nil, hnew_all, List.nil_append]
  have hdrop : s2.tasks.drop s0.tasks.length = new := by
    rw [e1]
    exact List.drop_left s0.tasks new
  rw [hloop]
  refine ⟨rfl, ?_, rfl, rfl⟩
  show s2.clearMarkedForRemoval.tasks = s2.tasks.drop s0.tasks.length
  rw [htasks, hdrop]

/-- C5, witness. -/
theorem c5_amended_witness :
    ((applyAdds (Scheduler.stop { tasks := [{ PID := 1 }] })
        [([], 7, false, 0)]).loop 100).2 = [] ∧
    ((applyAdds (Scheduler.stop { tasks := [{ PID := 1 }] })
        [([], 7, false, 0)]).loop 100).1.tasks =
      (applyAdds (Scheduler.stop { tasks := [{ PID := 1 }] })
        [([], 7, false, 0)]).tasks.drop
          (Scheduler.tasks { tasks := [{ PID := 1 }] }).length ∧
    ((applyAdds (Scheduler.stop { tasks := [{ PID := 1 }] })
        [([], 7, false, 0)]).loop 100).1.will_stop = false ∧
    ((applyAdds (Scheduler.stop { tasks := [{ PID := 1 }] })
        [([], 7, false, 0)]).loop 100).1.tasksToRemove = [] := by
  refine c5_amended { tasks := [{ PID := 1 }] } [([], 7, false, 0)] 100
    (by decide) (by intro p hp; simp at hp) rfl ?_
  exact List.cons_ne_nil _ _

/-- C7, counterexample: add a repeating task in parallel mode, then call
`setAndStartSequentialMode(true)`.  The resulting state has
`sequentialMode = true` yet its (only) task still has `repeat == true` —
`setAndStartSequentialMode` does not clear repeat flags, so the claimed
invariant fails for call sequences that include it. -/
theorem c7_counterexample :
    c7s.sequentialMode = true ∧ c7s.tasks.map Task.repeat_ = [true] := by
  decide

/-- C7, amended: from any state in sequential mode with no repeating task,
any sequence of add-family, `removeTask`, `setRepeatingTaskInterval`,
`stop`, `hold`, `resume` and `loop` calls — i.e. any call chain that does
not invoke `setAndStartSequentialMode` — preserves both sequential mode and
the absence of `repeat == true` tasks (`addTimedTask` forcibly downgrades
`repeat` in sequential mode); a repeating task added in parallel mode does
survive a later switch to sequential mode, as the counterexample shows. -/
theorem c7_amended (s : Scheduler) (hs : SeqNoRepeat s) (ops : List TopOp)
    (hops : ∀ op ∈ ops, op.isSetSeq = false) :
    SeqNoRepeat (runOps s ops) := by
  induction ops generalizing s with
  | nil => exact hs
  | cons op rest ih =>
    unfold runOps
    rw [List.foldl_cons]
    exact ih (runOp s op)
      (SNR_runOp hs op (hops op (List.mem_cons_self op rest)))
      fun o ho => hops o (List.mem_cons_of_mem op ho)

/-- C7, witness. -/
theorem c7_amended_witness :
    SeqNoRepeat (runOps (initScheduler.setAndStartSequentialMode true 0)
      [TopOp.addTimed [] 5 true 9, TopOp.loopOp 3]) := by
  refine c7_amended (initScheduler.setAndStartSequentialMode true 0)
    ⟨rfl, ?_⟩ [TopOp.addTimed [] 5 true 9, TopOp.loopOp 3] ?_
  · intro t ht
    simp [initScheduler, Scheduler.setAndStartSequentialMode] at ht
  · intro op hop
    rcases List.mem_cons.mp hop with h | h
    · subst h; rfl
    · rcases List.mem_cons.mp h with h | h
      · subst h; rfl
      · simp at h

/-- C9, witness. -/
theorem c9_capacity_witness :
    ((runOps initScheduler [TopOp.addTimed [] 5 false 0]).tasks.length
      ≤ 124) ∧
    Scheduler.addTimedTask { tasks := List.replicate 124 {} } [] 9 false 0
      = (0, { tasks := List.replicate 124 {} }) ∧
    Scheduler.addConditionalTask { tasks := List.replicate 124 {} } []
      (fun _ => true) 9 false = (0, { tasks := List.replicate 124 {} }) ∧
    Scheduler.addConditionalTimedTask { tasks := List.replicate 124 {} } []
      (fun _ => true) 9 9 false = (0, { tasks := List.replicate 124 {} }) :=
  ⟨c9_capacity.1 [TopOp.addTimed [] 5 false 0],
   c9_capacity.2.1 { tasks := List.replicate 124 {} } [] 9 false 0
     (by simp),
   c9_capacity.2.2.1 { tasks := List.replicate 124 {} } [] (fun _ => true)
     9 false (by simp),
   c9_capacity.2.2.2 { tasks := List.replicate 124 {} } [] (fun _ => true)
     9 9 false (by simp)⟩

/-- C3, counterexample: in the claimed scenario (sequential mode entered at
1000; tasks a=100 ms, b=50 ms, c=200 ms; `loop` at 1000, 1100, 1150, 1350)
the 1150 call dispatches nothing — b (PID 2) does not fire there, and
`lastSequentialFinishTime` stays 1100 rather than becoming 1150: b is only
activated at 1150 with `executeAt = 1150 + 50 = 1200`. -/
theorem c3_counterexample :
    c3r3.2 = [] ∧ c3r3.1.lastSequentialFinishTime = 1100 ∧
      (c3r3.1.tasks.map Task.executeAt) = [1200, 0] := by decide

/-- C3, amended: in that scenario the actual behaviour is: a (PID 1) fires
at the 1100 call and `lastSequentialFinishTime` becomes 1100; the 1150 call
only activates b (PID 2), setting `executeAt := 1150 + 50 = 1200` (the post
delay is measured from the `loop` call at which the task first reaches the
head and its condition is evaluated, not from the previous task's
completion); b fires at the 1350 call (`lastSequentialFinishTime` becomes
1350); c (PID 3) is still pending and unactivated after all four calls. -/
theorem c3_amended :
    c3r1.2 = [] ∧ (c3r1.1.tasks.map Task.executeAt) = [1100, 0, 0] ∧
    c3r2.2 = [Event.exec 1] ∧ c3r2.1.lastSequentialFinishTime = 1100 ∧
    c3r3.2 = [] ∧
    c3r4.2 = [Event.exec 2] ∧ c3r4.1.lastSequentialFinishTime = 1350 ∧
    pidsOf c3r4.1.tasks = [3] ∧
    (c3r4.1.tasks.map Task.executeAt) = [0] := by decide

/-- C4: evaluation at the failing input.  Task 1's action adds task 2 and
then calls `stop()`; the same tick removes task 2 as well, because `stop()`
ledgers every task present at the call — including those the running action
added before calling `stop()` — and the `will_stop` handler then erases all
ledgered tasks.  By contrast a task added after the `stop()` call survives.
This contradicts the claim (and the code's own comment "we want to keep
those new tasks") for adds made before the `stop()` call. -/
theorem c4_code_bug_eval :
    (c4AddThenStop.loop 1000).2 = [Event.exec 1] ∧
    pidsOf (c4AddThenStop.loop 1000).1.tasks = [] ∧
    (c4StopThenAdd.loop 1000).2 = [Event.exec 1] ∧
    pidsOf (c4StopThenAdd.loop 1000).1.tasks = [2] := by decide

/-- C6, counterexample: with `inLoop` set, `removeTask(1)` on a store
holding task 1 does not refuse: it returns `true` and appends 1 to the
removal ledger. -/
theorem c6_counterexample :
    (c6s.removeTask 1).1 = true ∧ (c6s.removeTask 1).2.tasksToRemove = [1] := by
  decide

/-- C6, amended: `removeTask` never checks `inLoop`.  Even with the flag
set it returns whether the PID is present, leaves the task store unchanged,
and appends the PID to the removal ledger exactly when the PID was found
(only `setRepeatingTaskInterval` refuses while `inLoop`). -/
theorem c6_amended (s : Scheduler) (pid : Nat) :
    (Scheduler.removeTask { s with inLoop := true } pid).1
        = (findTask s.tasks pid).isSome ∧
    (Scheduler.removeTask { s with inLoop := true } pid).2.tasks = s.tasks ∧
    (Scheduler.removeTask { s with inLoop := true } pid).2.tasksToRemove
        = s.tasksToRemove ++
            (if (findTask s.tasks pid).isSome then [pid] else []) := by
  unfold Scheduler.removeTask
  by_cases h : (findTask s.tasks pid).isSome <;> simp [h]

/-!
### The C1 scenario: a conditional task with timeout in parallel mode
-/

theorem toI32_small {W : Nat} (h : W < 2147483648) : toI32 W = (W : Int) := by
  unfold toI32
  rw [Nat.mod_eq_of_lt (by omega), if_pos h]
  exact Int.emod_eq_of_lt (by positivity)
    (by exact_mod_cast (show W < 4294967296 by omega))

theorem condWaitU32_toI32 {W : Nat} (h : W < 2147483648) :
    condWaitU32 (toI32 W) = W := by
  rw [toI32_small h]
  unfold condWaitU32
  have he : ((W : Int) % 4294967296) = (W : Int) :=
    Int.emod_eq_of_lt (by positivity)
      (by exact_mod_cast (show W < 4294967296 by omega))
  rw [he]
  exact Int.toNat_natCast W

theorem c1_first_loop (act : List Cmd) (p : Nat → Bool) (W T : Nat)
    (hW0 : 0 < W) (hW31 : W < 2147483648) (hp : p (U32 T) = false) :
    ((initScheduler.addConditionalTask act p W true).2).loop T =
      (c1State act p W (execTime (U32 T + W)), []) := by
  have hready : ready (U32 T) (execTime (U32 T + W)) = false :=
    ready_after_set hW0 hW31
  have hWpos : ¬(toI32 W ≤ 0) := by
    rw [toI32_small hW31]
    simp only [not_le]
    exact_mod_cast hW0
  show Scheduler.loop { tasks := [c1task act p W 0], nextPID := 2 } T = (c1State act p W (execTime (U32 T + W)), [])
  unfold Scheduler.loop Scheduler.loopParallel
  simp only [List.map_cons, List.map_nil]
  simp [activateParallel, Task.indefinite, Task.conditionTrue, Task.setExecutionTime, classifyParallel, dispatchParallel, reconcile, sortNat, uniqueSorted, insertSorted, timeoutEvents, hready, hWpos, condWaitU32_toI32 hW31, hp, c1State, c1task]

theorem c1_steady (act : List Cmd) (p : Nat → Bool) (W E t : Nat)
    (hE0 : ¬E = 0) (hp : p (U32 t) = false)
    (hready : ready (U32 t) E = false) :
    (c1State act p W E).loop t = (c1State act p W E, []) := by
  have hact : activateParallel (U32 t) (c1task act p W E) = c1task act p W E := by
    simp [activateParallel, c1task, hE0]
  have hclass : classifyParallel (U32 t) [c1task act p W E] = ([c1task act p W E], [], [], []) := by
    simp [classifyParallel, c1task, Task.conditionTrue, hp, hready]
  show ({ (Scheduler.loopParallel { tasks := [c1task act p W E], nextPID := 2, inLoop := true } (U32 t)).1 with inLoop := false }, (Scheduler.loopParallel { tasks := [c1task act p W E], nextPID := 2, inLoop := true } (U32 t)).2) = (c1State act p W E, [])
  unfold Scheduler.loopParallel
  dsimp only
  rw [List.map_cons, List.map_nil, hact, hclass]
  rfl

theorem c1_fire (act : List Cmd) (p : Nat → Bool) (W E tf : Nat)
    (hE0 : ¬E = 0) (hW0 : 0 < W) (hW31 : W < 2147483648)
    (hp : p (U32 tf) = false) (hready : ready (U32 tf) E = true) :
    (c1State act p W E).loop tf = ({ nextPID := 2 }, [Event.timeout 1]) := by
  have hWpos : ¬(toI32 W ≤ 0) := by
    rw [toI32_small hW31]
    simp only [not_le]
    exact_mod_cast hW0
  have hact : activateParallel (U32 tf) (c1task act p W E) = c1task act p W E := by
    simp [activateParallel, c1task, hE0]
  have hclass : classifyParallel (U32 tf) [c1task act p W E] = ([c1task act p W E], [], [1], [1]) := by
    simp [classifyParallel, c1task, Task.conditionTrue, Task.indefinite, hp, hready, hWpos]
  show ({ (Scheduler.loopParallel { tasks := [c1task act p W E], nextPID := 2, inLoop := true } (U32 tf)).1 with inLoop := false }, (Scheduler.loopParallel { tasks := [c1task act p W E], nextPID := 2, inLoop := true } (U32 tf)).2) = ({ nextPID := 2 }, [Event.timeout 1])
  unfold Scheduler.loopParallel
  dsimp only
  rw [List.map_cons, List.map_nil, hact, hclass]
  rfl

theorem c1_run (act : List Cmd) (p : Nat → Bool) (W E Tf : Nat)
    (hE0 : ¬E = 0) (hW0 : 0 < W) (hW31 : W < 2147483648)
    (hpf : p (U32 Tf) = false) (hfire : ready (U32 Tf) E = true) :
    ∀ mids : List Nat, (∀ t ∈ mids, p (U32 t) = false) →
      (∀ t ∈ mids, ready (U32 t) E = false) →
      runLoops (c1State act p W E) (mids ++ [Tf]) =
        ({ nextPID := 2 }, [Event.timeout 1]) := by
  intro mids
  induction mids with
  | nil =>
    intro _ _
    rw [List.nil_append, runLoops_cons,
      c1_fire act p W E Tf hE0 hW0 hW31 hpf hfire]
    rfl
  | cons m ms ih =>
    intro hpm hrm
    rw [List.cons_append, runLoops_cons,
      c1_steady act p W E m hE0 (hpm m (List.mem_cons_self m ms))
        (hrm m (List.mem_cons_self m ms))]
    dsimp only
    rw [List.nil_append,
      ih (fun t ht => hpm t (List.mem_cons_of_mem m ht))
         (fun t ht => hrm t (List.mem_cons_of_mem m ht))]

/-- C1, counterexample: `addConditionalTask(a, p≡false, W=300, onTimeout)`
with creation at T₀ = 1000, but the first `loop` call only at 1200.  At the
`loop` call at T = 1300 the claim demands removal and the `onTimeout`
callback, since `(i32)(1300 − (1000+300)) ≥ 0`; the code does neither —
activation happened at 1200, so the deadline is 1200+300 = 1500 and the
task is still present with no events. -/
theorem c1_counterexample :
    ((((initScheduler.addConditionalTask [] (fun _ => false) 300
        true).2).loop 1200).1.tasks.map Task.executeAt = [1500]) ∧
    (((((initScheduler.addConditionalTask [] (fun _ => false) 300
        true).2).loop 1200).1.loop 1300).2 = []) ∧
    pidsOf (((((initScheduler.addConditionalTask [] (fun _ => false) 300
        true).2).loop 1200).1.loop 1300).1.tasks) = [1] := by decide

/-- C1, amended (spec-modelled `onTimeout`): for
`addConditionalTask(a, p, W, onTimeout)` with `0 < W < 2^31` created on a
fresh scheduler, if `p` evaluates false at every `loop` call, then the
first `loop` call, at time T₁, arms the condition deadline
`E := (T₁+W) mod 2^32` (0 stored as 1) and dispatches nothing; `loop` calls
with `(i32)(now − E) < 0` change nothing; and the first `loop` call at Tf
with `(i32)(Tf − E) ≥ 0` removes the task from the store and invokes
`onTimeout(pid)` — the only callback of the entire run, hence exactly
once.  The deadline is measured from the first `loop` call after creation
(T₁), not from the creation time T₀, and `W ≥ 2^31` would make
`conditionWait` negative, i.e. an indefinite wait with no timeout. -/
theorem c1_amended (act : List Cmd) (p : Nat → Bool) (W T1 Tf : Nat)
    (mids : List Nat) (hW0 : 0 < W) (hW31 : W < 2147483648)
    (hp1 : p (U32 T1) = false)
    (hpm : ∀ t ∈ mids, p (U32 t) = false)
    (hpf : p (U32 Tf) = false)
    (hmid : ∀ t ∈ mids, ready (U32 t) (execTime (U32 T1 + W)) = false)
    (hfire : ready (U32 Tf) (execTime (U32 T1 + W)) = true) :
    ((initScheduler.addConditionalTask act p W true).2.loop T1).1.tasks.map
        Task.executeAt = [execTime (U32 T1 + W)] ∧
    ((initScheduler.addConditionalTask act p W true).2.loop T1).2 = [] ∧
    runLoops (initScheduler.addConditionalTask act p W true).2
        (T1 :: mids ++ [Tf]) = ({ nextPID := 2 }, [Event.timeout 1]) := by
  have h1 := c1_first_loop act p W T1 hW0 hW31 hp1
  refine ⟨?_, ?_, ?_⟩
  · rw [h1]
    simp [c1State, c1task]
  · rw [h1]
  · rw [List.cons_append, runLoops_cons, h1]
    dsimp only
    rw [List.nil_append,
      c1_run act p W (execTime (U32 T1 + W)) Tf (execTime_ne_zero _)
        hW0 hW31 hpf hfire mids hpm hmid]

/-- C1, witness. -/
theorem c1_amended_witness :
    ((initScheduler.addConditionalTask [] (fun _ => false) 300
        true).2.loop 1000).1.tasks.map Task.executeAt =
      [execTime (U32 1000 + 300)] ∧
    ((initScheduler.addConditionalTask [] (fun _ => false) 300
        true).2.loop 1000).2 = [] ∧
    runLoops (initScheduler.addConditionalTask [] (fun _ => false) 300
        true).2 (1000 :: [1100] ++ [1300]) =
      ({ nextPID := 2 }, [Event.timeout 1]) := by
  refine c1_amended [] (fun _ => false) 300 1000 1300 [1100] (by decide)
    (by decide) rfl ?_ rfl ?_ (by decide)
  · intro t _
    rfl
  · intro t ht
    rw [List.mem_singleton] at ht
    subst ht
    decide

/-- C2, counterexample: with `T = 2^32 - 5` and `D = 5` the sum `T + D`
wraps to 0 mod 2^32, and the first `loop` call stores `executeAt = 1`
(the sentinel remap of `setExecutionTime`), not `T + D` — so "sets the
task's executeAt to T+D" fails in exactly the wrap corner the claim
includes. -/
theorem c2_counterexample :
    U32 (4294967291 + 5) = 0 ∧
    (((initScheduler.addTimedTask [] 5 false 0).2).loop
        4294967291).1.tasks.map Task.executeAt = [1] := by decide

/-- C2, amended: for a task created by `addTimedTask(a, D, repeat=false)`
with `0 < D < 2^31` and an arbitrary action `a`, the first `loop` call at
time `T` sets `executeAt` to `E := (T+D) mod 2^32`, except that the value 0
is stored as 1, and dispatches nothing; across any further `loop` calls at
times that do not satisfy `(i32)(now − E) ≥ 0` followed by one that does,
the action runs exactly once — at that first ready call — and the task is
removed from the store by the end of that call (tasks the action itself
adds survive with fresh PIDs). -/
theorem c2_amended (act : List Cmd) (D T1 Tf : Nat) (mids : List Nat)
    (hD : 0 < D) (h31 : D < 2147483648)
    (hmid : ∀ t ∈ mids, ready (U32 t) (execTime (U32 T1 + D)) = false)
    (hfire : ready (U32 Tf) (execTime (U32 T1 + D)) = true) :
    (((initScheduler.addTimedTask act D false 0).2).loop T1).1.tasks.map
        Task.executeAt = [execTime (U32 T1 + D)] ∧
    (((initScheduler.addTimedTask act D false 0).2).loop T1).2 = [] ∧
    (runLoops (initScheduler.addTimedTask act D false 0).2
        (T1 :: mids ++ [Tf])).2 = [Event.exec 1] ∧
    1 ∉ pidsOf (runLoops (initScheduler.addTimedTask act D false 0).2
        (T1 :: mids ++ [Tf])).1.tasks := by
  have h1 := c2_first_loop act D T1 hD h31
  have hrun := c2_run act D (execTime (U32 T1 + D)) Tf
    (execTime_ne_zero _) mids hmid hfire
  refine ⟨?_, ?_, ?_, ?_⟩
  · rw [h1]
    simp [c2State, c2task]
  · rw [h1]
  · rw [List.cons_append, runLoops_cons, h1]
    dsimp only
    rw [List.nil_append]
    exact hrun.1
  · rw [List.cons_append, runLoops_cons, h1]
    dsimp only
    exact hrun.2

/-- C2, witness. -/
theorem c2_amended_witness :
    (((initScheduler.addTimedTask [] 5 false 0).2).loop 1000).1.tasks.map
        Task.executeAt = [execTime (U32 1000 + 5)] ∧
    (((initScheduler.addTimedTask [] 5 false 0).2).loop 1000).2 = [] ∧
    (runLoops (initScheduler.addTimedTask [] 5 false 0).2
        (1000 :: [1002] ++ [1005])).2 = [Event.exec 1] ∧
    1 ∉ pidsOf (runLoops (initScheduler.addTimedTask [] 5 false 0).2
        (1000 :: [1002] ++ [1005])).1.tasks := by
  refine c2_amended [] 5 1000 1005 [1002] (by decide) (by decide) ?_
    (by decide)
  intro t ht
  rw [List.mem_singleton] at ht
  subst ht
  decide

/-- C10: if `onHold` is set (or the store is empty) when `loop` is called,
`loop` returns the state completely unchanged and dispatches nothing — in
particular a pending `will_stop` is not cleared and the removal ledger is
not drained; and after `resume()`, the first `loop` call (store nonempty)
clears `will_stop` and applies exactly the ledgered removals, again without
dispatching anything. -/
theorem c10_hold_frame :
    (∀ (s : Scheduler) (now : Nat), s.onHold = true ∨ s.tasks = [] →
      s.loop now = (s, [])) ∧
    (∀ (s : Scheduler) (now : Nat), s.will_stop = true → s.tasks ≠ [] →
      (s.resume).loop now =
        ({ s with onHold := false, will_stop := false, tasksToRemove := [],
                  tasks := s.tasksToRemove.foldl eraseTaskByPID s.tasks },
         [])) := by
  constructor
  · intro s now h
    unfold Scheduler.loop
    rcases h with h | h <;> simp [h]
  · intro s now hws hne
    unfold Scheduler.loop Scheduler.resume Scheduler.clearMarkedForRemoval
    simp [hws, hne]

/-- C10, witness. -/
theorem c10_hold_frame_witness :
    (Scheduler.loop { onHold := true, tasks := [{ PID := 5 }] } 7 =
      ({ onHold := true, tasks := [{ PID := 5 }] }, [])) ∧
    (Scheduler.loop
        (Scheduler.resume
          { will_stop := true, onHold := true, tasks := [{ PID := 5 }],
            tasksToRemove := [5] }) 7 =
      ({ onHold := false, will_stop := false, tasksToRemove := [],
         tasks := [] }, [])) := by
  constructor
  · exact c10_hold_frame.1 { onHold := true, tasks := [{ PID := 5 }] } 7
      (Or.inl rfl)
  · exact c10_hold_frame.2
      { will_stop := true, onHold := true, tasks := [{ PID := 5 }],
        tasksToRemove := [5] } 7 rfl (List.cons_ne_nil _ _)

end MicroSched
